import Mathlib

/-!
Verification development for the Japanese-N4 study API (src/index.js, src/new.js).

The two route files are shallowly embedded here:

* the validated documents the Gemini responses parse into (`GrammarDoc`,
  `QuestionDoc`),
* the relational store (`Store`) with autoincrement identifiers, standing for
  the SQL Server tables GrammarPoints / Examples / Vocabulary / KanjiInfo /
  QuestionBatch / questions / question_options,
* the cascading insert routes, both as pure functions on the store and as
  transactional functions parameterised by a failure oracle (`failAt`) that
  says whether the k-th INSERT statement of the call fails; a failed insert
  triggers the catch/rollback branch of the route, so the committed store is
  returned unchanged,
* the SQL left-join read queries (`joinRows`, `examJoinRows`), modelled as
  nested loops over rows sorted ascending by identifier, exactly the row sets
  the ORDER BY clauses produce,
* the JavaScript row-to-tree loops (`stepEx` for GET /api/grammar/:id,
  `stepAll` for GET /api/grammar, `stepQ` for GET /api/exam/today).
  JavaScript object maps keyed by integer-like ids are modelled as
  insertion-ordered association lists; `Object.values` on such objects
  returns values in ascending numeric key order (ECMAScript integer-index
  property order), modelled by `sortByKey`,
* the code-fence sanitizer of both files, as an executable reading of the
  regexes /```json\s*([\s\S]*?)```/i and /```([\s\S]*?)```/i with JavaScript
  leftmost-match, greedy \s*, lazy body semantics, over `List Char`.

JavaScript truthiness of a nullable integer column (`if (row.ExampleId)`)
is modelled by `truthy`: NULL and the integer 0 are both falsy.
-/

/-- Leaf document node: one vocabulary entry of a grammar example. -/
structure Vocab where
  word : String
  romaji : String
  meaning : String
deriving Repr, DecidableEq

/-- Child document node: one example sentence with its vocab list. -/
structure Example where
  japanese : String
  romaji : String
  english : String
  vocab : List Vocab
deriving Repr, DecidableEq

/-- Root document: the validated GrammarDocument shape produced by the
generator (concept, meaning, details, examples). -/
structure GrammarDoc where
  concept : String
  meaning : String
  details : String
  examples : List Example
deriving Repr, DecidableEq

/-- One MCQ question of a QuestionSetDocument, as parsed from the generator. -/
structure QuestionDoc where
  question_type : String
  question : String
  options : List String
  answer : String
  explanation : String
deriving Repr, DecidableEq

/-- Row of the GrammarPoints table. -/
structure GrammarRow where
  grammarId : Nat
  concept : String
  meaning : String
  details : String
deriving Repr, DecidableEq

/-- Row of the Examples table. -/
structure ExampleRow where
  exampleId : Nat
  grammarId : Nat
  japanese : String
  romaji : String
  english : String
deriving Repr, DecidableEq

/-- Row of the Vocabulary table. -/
structure VocabRow where
  vocabId : Nat
  exampleId : Nat
  word : String
  romaji : String
  meaning : String
deriving Repr, DecidableEq

/-- Row of the KanjiInfo table (only the columns the routes read). -/
structure KanjiRow where
  id : Nat
  kanji : String
deriving Repr, DecidableEq

/-- Row of the QuestionBatch table.  The two lists are stored serialized
(JSON.stringify) and read back with JSON.parse; the round-tripped list value
is modelled directly. -/
structure QuestionBatchRow where
  batchId : Nat
  grammarList : List String
  kanjiList : List String
deriving Repr, DecidableEq

/-- Row of the questions table. -/
structure QuestionRow where
  questionId : Nat
  batchId : Nat
  questionType : String
  questionText : String
  answer : String
  explanation : String
deriving Repr, DecidableEq

/-- Row of the question_options table. -/
structure OptionRow where
  optionId : Nat
  questionId : Nat
  optionText : String
  isCorrect : Bool
deriving Repr, DecidableEq

/-- The relational store: all tables plus the autoincrement counters that
assign identifiers on insert (SQL Server identity columns start at 1). -/
structure Store where
  grammarRows : List GrammarRow := []
  exampleRows : List ExampleRow := []
  vocabRows : List VocabRow := []
  kanjiRows : List KanjiRow := []
  batchRows : List QuestionBatchRow := []
  questionRows : List QuestionRow := []
  optionRows : List OptionRow := []
  nextGrammarId : Nat := 1
  nextExampleId : Nat := 1
  nextVocabId : Nat := 1
  nextBatchId : Nat := 1
  nextQuestionId : Nat := 1
  nextOptionId : Nat := 1
deriving Repr, DecidableEq

/-- The empty store, counters at 1. -/
def store0 : Store := {}

/-- INSERT INTO GrammarPoints (Concept, Meaning, Details) OUTPUT INSERTED.GrammarId. -/
def Store.addGrammar (s : Store) (c m d : String) : Store :=
  { s with
    grammarRows := s.grammarRows ++ [⟨s.nextGrammarId, c, m, d⟩],
    nextGrammarId := s.nextGrammarId + 1 }

/-- INSERT INTO Examples (GrammarId, Japanese, Romaji, English) OUTPUT INSERTED.ExampleId. -/
def Store.addExample (s : Store) (gid : Nat) (e : Example) : Store :=
  { s with
    exampleRows := s.exampleRows ++ [⟨s.nextExampleId, gid, e.japanese, e.romaji, e.english⟩],
    nextExampleId := s.nextExampleId + 1 }

/-- INSERT INTO Vocabulary (ExampleId, Word, Romaji, Meaning). -/
def Store.addVocab (s : Store) (eid : Nat) (v : Vocab) : Store :=
  { s with
    vocabRows := s.vocabRows ++ [⟨s.nextVocabId, eid, v.word, v.romaji, v.meaning⟩],
    nextVocabId := s.nextVocabId + 1 }

/-- INSERT INTO QuestionBatch (grammar_list, kanji_list) OUTPUT INSERTED.batch_id. -/
def Store.addBatch (s : Store) (gl kl : List String) : Store :=
  { s with
    batchRows := s.batchRows ++ [⟨s.nextBatchId, gl, kl⟩],
    nextBatchId := s.nextBatchId + 1 }

/-- INSERT INTO questions (...) OUTPUT INSERTED.question_id. -/
def Store.addQuestion (s : Store) (bid : Nat) (q : QuestionDoc) : Store :=
  { s with
    questionRows := s.questionRows ++
      [⟨s.nextQuestionId, bid, q.question_type, q.question, q.answer, q.explanation⟩],
    nextQuestionId := s.nextQuestionId + 1 }

/-- INSERT INTO question_options (question_id, option_text, is_correct). -/
def Store.addOption (s : Store) (qid : Nat) (txt : String) (correct : Bool) : Store :=
  { s with
    optionRows := s.optionRows ++ [⟨s.nextOptionId, qid, txt, correct⟩],
    nextOptionId := s.nextOptionId + 1 }

/-! ## Pure cascading writer (the success path of POST /api/gemini) -/

/-- Inner loop of the cascade: insert every vocab of one example. -/
def insVocabs (eid : Nat) (vs : List Vocab) (st : Store) : Store :=
  vs.foldl (fun st v => st.addVocab eid v) st

/-- Middle loop of the cascade: insert every example, then its vocab, wiring
the OUTPUT ExampleId of each example insert into its vocab inserts. -/
def insExamples (gid : Nat) (es : List Example) (st : Store) : Store :=
  es.foldl (fun st e => insVocabs st.nextExampleId e.vocab (st.addExample gid e)) st

/-- The whole successful cascade: root insert, then children, then
grandchildren; returns the committed store and the root id the route
responds with. -/
def writeGrammarDoc (doc : GrammarDoc) (s : Store) : Store × Nat :=
  let gid := s.nextGrammarId
  (insExamples gid doc.examples (s.addGrammar doc.concept doc.meaning doc.details), gid)

/-! ## Transactional cascading writer with a failure oracle

`failAt k = some msg` means the k-th INSERT statement issued by this call
fails with error message `msg` (constraint violation, connectivity loss,
timeout...).  The route's catch branch runs `tx.rollback()` and responds 500
with the error message, so the committed store is the original one. -/

def insVocabTx (failAt : Nat → Option String) (eid : Nat) :
    List Vocab → Nat → Store → Except String (Store × Nat)
  | [], k, st => .ok (st, k)
  | v :: vs, k, st =>
    match failAt k with
    | some msg => .error msg
    | none => insVocabTx failAt eid vs (k + 1) (st.addVocab eid v)

def insExamplesTx (failAt : Nat → Option String) (gid : Nat) :
    List Example → Nat → Store → Except String (Store × Nat)
  | [], k, st => .ok (st, k)
  | e :: es, k, st =>
    match failAt k with
    | some msg => .error msg
    | none =>
      match insVocabTx failAt st.nextExampleId e.vocab (k + 1) (st.addExample gid e) with
      | .error msg => .error msg
      | .ok (st2, k2) => insExamplesTx failAt gid es k2 st2

/-- POST /api/gemini from the validated document on: begin transaction,
cascading inserts, commit; on any insert failure, rollback and surface the
error.  Returns the response (root id and echoed document on success, the
error message of the 500 response on failure) and the committed store. -/
def grammarRouteTx (failAt : Nat → Option String) (doc : GrammarDoc) (s : Store) :
    Except String (Nat × GrammarDoc) × Store :=
  match failAt 0 with
  | some msg => (.error msg, s)
  | none =>
    let gid := s.nextGrammarId
    match insExamplesTx failAt gid doc.examples 1
        (s.addGrammar doc.concept doc.meaning doc.details) with
    | .error msg => (.error msg, s)
    | .ok (st, _) => (.ok (gid, doc), st)

/-- Number of INSERT statements the grammar cascade issues for `es`. -/
def insCountE (es : List Example) : Nat :=
  es.foldr (fun e n => 1 + e.vocab.length + n) 0

/-- Total number of INSERT statements of POST /api/gemini (root included). -/
def numInsertsG (doc : GrammarDoc) : Nat := 1 + insCountE doc.examples

/-! ## Closed forms of the pure cascade -/

/-- The Vocabulary rows `insVocabs` appends, ids counting up from `vId`. -/
def vocRows (eid : Nat) : Nat → List Vocab → List VocabRow
  | _, [] => []
  | vId, v :: vs => ⟨vId, eid, v.word, v.romaji, v.meaning⟩ :: vocRows eid (vId + 1) vs

/-- The Examples rows `insExamples` appends, ids counting up from `eId`. -/
def exRows (gid : Nat) : Nat → List Example → List ExampleRow
  | _, [] => []
  | eId, e :: es => ⟨eId, gid, e.japanese, e.romaji, e.english⟩ :: exRows gid (eId + 1) es

/-- The Vocabulary rows of a whole example list, each example's vocab wired
to the example's generated id. -/
def exVocRows : Nat → Nat → List Example → List VocabRow
  | _, _, [] => []
  | eId, vId, e :: es => vocRows eId vId e.vocab ++ exVocRows (eId + 1) (vId + e.vocab.length) es

/-! ## The SQL read query of GET /api/grammar/:id

SELECT ... FROM GrammarPoints g LEFT JOIN Examples e ON g.GrammarId = e.GrammarId
LEFT JOIN Vocabulary v ON e.ExampleId = v.ExampleId WHERE g.GrammarId = @GrammarId
ORDER BY e.ExampleId, v.VocabId.

NULL columns are `none`; a nullable integer column tested by JavaScript
truthiness is falsy for both NULL and 0. -/

structure JoinRow where
  GrammarId : Nat
  Concept : String
  Meaning : String
  Details : String
  ExampleId : Option Nat
  Japanese : Option String
  Romaji : Option String
  English : Option String
  VocabId : Option Nat
  Word : Option String
  VocabRomaji : Option String
  VocabMeaning : Option String
deriving Repr, DecidableEq

/-- JavaScript truthiness of a nullable integer column: NULL and 0 are falsy. -/
def truthy (o : Option Nat) : Bool := decide (o.getD 0 ≠ 0)

/-- Insertion sort by a Nat key, modelling ORDER BY key ASC (and the
ascending integer-index property order of JavaScript objects). -/
def insertSorted {α : Type} (key : α → Nat) (x : α) : List α → List α
  | [] => [x]
  | y :: ys => if key x ≤ key y then x :: y :: ys else y :: insertSorted key x ys

def sortByKey {α : Type} (key : α → Nat) : List α → List α
  | [] => []
  | x :: xs => insertSorted key x (sortByKey key xs)

/-- Join row of a grammar point with no examples (both joins yield NULL). -/
def grammarJoinRow (g : GrammarRow) : JoinRow :=
  ⟨g.grammarId, g.concept, g.meaning, g.details, none, none, none, none, none, none, none, none⟩

/-- Join row of an example with no vocabulary (vocab columns NULL). -/
def exampleJoinRow (g : GrammarRow) (e : ExampleRow) : JoinRow :=
  ⟨g.grammarId, g.concept, g.meaning, g.details, some e.exampleId, some e.japanese,
    some e.romaji, some e.english, none, none, none, none⟩

/-- Join row of a full grammar-example-vocab match. -/
def vocabJoinRow (g : GrammarRow) (e : ExampleRow) (v : VocabRow) : JoinRow :=
  ⟨g.grammarId, g.concept, g.meaning, g.details, some e.exampleId, some e.japanese,
    some e.romaji, some e.english, some v.vocabId, some v.word, some v.romaji, some v.meaning⟩

/-- Rows an example contributes: one per vocab row (ordered by VocabId), or a
single NULL-vocab row when it has none. -/
def vocabJoinOf (vrows : List VocabRow) (g : GrammarRow) (e : ExampleRow) : List JoinRow :=
  match sortByKey (fun v => v.vocabId) (vrows.filter (fun v => decide (v.exampleId = e.exampleId))) with
  | [] => [exampleJoinRow g e]
  | v :: vs => (v :: vs).map (vocabJoinRow g e)

def joinExList (vrows : List VocabRow) (g : GrammarRow) : List ExampleRow → List JoinRow
  | [] => []
  | e :: es => vocabJoinOf vrows g e ++ joinExList vrows g es

/-- Rows a grammar point contributes: its examples' rows (ordered by
ExampleId), or a single NULL-example row when it has none. -/
def examplesJoinOf (s : Store) (g : GrammarRow) : List JoinRow :=
  match sortByKey (fun e => e.exampleId) (s.exampleRows.filter (fun e => decide (e.grammarId = g.grammarId))) with
  | [] => [grammarJoinRow g]
  | e :: es => joinExList s.vocabRows g (e :: es)

def joinGList (s : Store) : List GrammarRow → List JoinRow
  | [] => []
  | g :: gs => examplesJoinOf s g ++ joinGList s gs

/-- The full WHERE GrammarId = gid query result. -/
def joinRows (s : Store) (gid : Nat) : List JoinRow :=
  joinGList s (s.grammarRows.filter (fun g => decide (g.grammarId = gid)))

/-! ## The row-to-tree loop of GET /api/grammar/:id (exampleMap) -/

/-- Association list lookup; JavaScript object property access by integer key. -/
def alookup {α : Type} : List (Nat × α) → Nat → Option α
  | [], _ => none
  | p :: m, k => if p.1 = k then some p.2 else alookup m k

/-- The vocab object pushed from a row. -/
def vocabOfRow (r : JoinRow) : Vocab :=
  ⟨r.Word.getD "", r.VocabRomaji.getD "", r.VocabMeaning.getD ""⟩

/-- Push a vocab entry onto the example registered under `eid`
(`exampleMap[row.ExampleId].vocab.push(...)`). -/
def pushVocab (m : List (Nat × Example)) (eid : Nat) (v : Vocab) : List (Nat × Example) :=
  m.map (fun p => if p.1 = eid then (p.1, { p.2 with vocab := p.2.vocab ++ [v] }) else p)

/-- One iteration of the `for (const row of rows)` loop of GET /api/grammar/:id.
The JavaScript code aliases `exampleMap[id]` and the object pushed onto
`grammar.examples`; the insertion-ordered association list models both at
once (its value order is the push order). -/
def stepEx (acc : List (Nat × Example)) (r : JoinRow) : List (Nat × Example) :=
  if truthy r.ExampleId then
    let eid := r.ExampleId.getD 0
    match alookup acc eid with
    | none =>
      acc ++ [(eid, { japanese := r.Japanese.getD "", romaji := r.Romaji.getD "",
                      english := r.English.getD "",
                      vocab := if truthy r.VocabId then [vocabOfRow r] else [] })]
    | some _ => if truthy r.VocabId then pushVocab acc eid (vocabOfRow r) else acc
  else acc

/-- The flat-rows-to-nested-JSON transform of GET /api/grammar/:id: 404 (none)
on an empty row set, else scalars from the first row and the deduplicated
example list from the loop. -/
def reconstructGrammar (rows : List JoinRow) : Option GrammarDoc :=
  match rows with
  | [] => none
  | r0 :: _ =>
    some { concept := r0.Concept, meaning := r0.Meaning, details := r0.Details,
           examples := (rows.foldl stepEx []).map (fun p => p.2) }

/-! ## Canonical join rows of a freshly written document -/

/-- The join rows a single freshly inserted example produces (example id
`eId`, vocab ids counting up from `vId`). -/
def canonRows (g : GrammarRow) : Nat → Nat → List Example → List JoinRow
  | _, _, [] => []
  | eId, vId, e :: es =>
    (match vocRows eId vId e.vocab with
     | [] => [exampleJoinRow g ⟨eId, g.grammarId, e.japanese, e.romaji, e.english⟩]
     | v :: vs => (v :: vs).map (vocabJoinRow g ⟨eId, g.grammarId, e.japanese, e.romaji, e.english⟩))
    ++ canonRows g (eId + 1) (vId + e.vocab.length) es

/-- The association list the reconstruction loop builds from canonical rows. -/
def assocOf : Nat → List Example → List (Nat × Example)
  | _, [] => []
  | eId, e :: es => (eId, e) :: assocOf (eId + 1) es

/-- Store well-formedness for the grammar tables: counters started at 1 and
every stored identifier was assigned by a previous counter value. -/
def Store.WFGrammar (s : Store) : Prop :=
  1 ≤ s.nextGrammarId ∧ 1 ≤ s.nextExampleId ∧ 1 ≤ s.nextVocabId ∧
  (∀ g ∈ s.grammarRows, g.grammarId < s.nextGrammarId) ∧
  (∀ e ∈ s.exampleRows, e.grammarId < s.nextGrammarId ∧ e.exampleId < s.nextExampleId) ∧
  (∀ v ∈ s.vocabRows, v.exampleId < s.nextExampleId)

instance (s : Store) : Decidable s.WFGrammar := by
  unfold Store.WFGrammar; infer_instance

/-! ## The multi-root read path GET /api/grammar (grammarMap)

The all-roots query is the same left join without WHERE, ORDER BY
g.GrammarId, e.ExampleId, v.VocabId.  Its loop keys a plain object
`grammarMap` by GrammarId and finally returns `Object.values(grammarMap)`:
for integer-like keys ECMAScript enumerates own properties in ascending
numeric order, NOT insertion order, hence the `sortByKey` below. -/

/-- Example node of the multi-root output (this route includes ids). -/
structure ExampleN where
  id : Nat
  japanese : String
  romaji : String
  english : String
  vocab : List Vocab
deriving Repr, DecidableEq

/-- Root node of the multi-root output. -/
structure GrammarN where
  id : Nat
  concept : String
  meaning : String
  details : String
  examples : List ExampleN
deriving Repr, DecidableEq

/-- The `// Handle examples` part of one loop iteration, mutating the root
node: find the example by id in the node's array, create it if absent, then
push the row's vocab if present. -/
def addExampleToNode (r : JoinRow) (g : GrammarN) : GrammarN :=
  let eid := r.ExampleId.getD 0
  match g.examples.find? (fun ex => ex.id == eid) with
  | none =>
    { g with examples := g.examples ++
        [⟨eid, r.Japanese.getD "", r.Romaji.getD "", r.English.getD "",
          if truthy r.VocabId then [vocabOfRow r] else []⟩] }
  | some _ =>
    if truthy r.VocabId then
      { g with examples := g.examples.map (fun ex =>
          if ex.id = eid then { ex with vocab := ex.vocab ++ [vocabOfRow r] } else ex) }
    else g

/-- Update the root node registered under key `k` in place. -/
def updateG (m : List (Nat × GrammarN)) (k : Nat) (f : GrammarN → GrammarN) :
    List (Nat × GrammarN) :=
  m.map (fun p => if p.1 = k then (p.1, f p.2) else p)

/-- One iteration of the `for (const row of rows)` loop of GET /api/grammar. -/
def stepAll (acc : List (Nat × GrammarN)) (r : JoinRow) : List (Nat × GrammarN) :=
  let acc' :=
    match alookup acc r.GrammarId with
    | none => acc ++ [(r.GrammarId, ⟨r.GrammarId, r.Concept, r.Meaning, r.Details, []⟩)]
    | some _ => acc
  if truthy r.ExampleId then updateG acc' r.GrammarId (addExampleToNode r) else acc'

/-- The multi-root transform: build grammarMap, then Object.values, which for
integer-like keys is ascending numeric key order. -/
def reconstructAll (rows : List JoinRow) : List GrammarN :=
  (sortByKey (fun p => p.1) (rows.foldl stepAll [])).map (fun p => p.2)

/-- First-seen order of the root identifiers of a row stream. -/
def firstSeen (l : List Nat) : List Nat :=
  l.foldl (fun acc g => if g ∈ acc then acc else acc ++ [g]) []

/-! ## POST /api/gemini/questions (new.js): sampling, batch insert, question
and option inserts.

The two SELECT TOP n ... ORDER BY NEWID() samples delegate the randomness to
the store; they are modelled by caller-supplied reorderings `permG`, `permK`
of the two (independent) pools, of which the code keeps the first 5 and
first 10 rows. -/

def sampleGrammar (permG : List GrammarRow → List GrammarRow) (s : Store) : List GrammarRow :=
  (permG s.grammarRows).take 5

def sampleKanji (permK : List KanjiRow → List KanjiRow) (s : Store) : List KanjiRow :=
  (permK s.kanjiRows).take 10

def grammarListOf (permG : List GrammarRow → List GrammarRow) (s : Store) : List String :=
  (sampleGrammar permG s).map (fun r => r.concept)

def kanjiListOf (permK : List KanjiRow → List KanjiRow) (s : Store) : List String :=
  (sampleKanji permK s).map (fun r => r.kanji)

/-- The option-insert loop of one question: is_correct is recomputed as
`opt === q.answer`, not read from the generator output. -/
def insOptionsP (qid : Nat) (answer : String) (opts : List String) (st : Store) : Store :=
  opts.foldl (fun st opt => st.addOption qid opt (opt == answer)) st

/-- Insert one question and then its options, wiring the question's OUTPUT id. -/
def insertQuestionP (bid : Nat) (q : QuestionDoc) (st : Store) : Store :=
  insOptionsP st.nextQuestionId q.answer q.options (st.addQuestion bid q)

/-- The `for (const q of questions)` loop. -/
def insQuestionDocs (bid : Nat) (qs : List QuestionDoc) (st : Store) : Store :=
  qs.foldl (fun st q => insertQuestionP bid q st) st

/-- The success path of POST /api/gemini/questions: sample both pools, insert
the QuestionBatch row, insert every parsed question with its options. -/
def writeQuestionBatch (permG : List GrammarRow → List GrammarRow)
    (permK : List KanjiRow → List KanjiRow) (qs : List QuestionDoc) (s : Store) : Store × Nat :=
  let bid := s.nextBatchId
  (insQuestionDocs bid qs (s.addBatch (grammarListOf permG s) (kanjiListOf permK s)), bid)

/-! Transactional version with the same failure oracle convention; insert 0
is the QuestionBatch insert, the question/option inserts follow.  The
generator call happens inside the transaction; `qs` is its parsed output. -/

def insOptionsTx (failAt : Nat → Option String) (qid : Nat) (answer : String) :
    List String → Nat → Store → Except String (Store × Nat)
  | [], k, st => .ok (st, k)
  | opt :: rest, k, st =>
    match failAt k with
    | some msg => .error msg
    | none => insOptionsTx failAt qid answer rest (k + 1) (st.addOption qid opt (opt == answer))

def insQuestionsTx (failAt : Nat → Option String) (bid : Nat) :
    List QuestionDoc → Nat → Store → Except String (Store × Nat)
  | [], k, st => .ok (st, k)
  | q :: rest, k, st =>
    match failAt k with
    | some msg => .error msg
    | none =>
      match insOptionsTx failAt st.nextQuestionId q.answer q.options (k + 1)
          (st.addQuestion bid q) with
      | .error msg => .error msg
      | .ok (st2, k2) => insQuestionsTx failAt bid rest k2 st2

/-- POST /api/gemini/questions: on success responds with the batch id, the two
sampled lists and the question count; any insert failure rolls the whole
transaction back (batch row included) and surfaces the error. -/
def questionsRouteTx (failAt : Nat → Option String)
    (permG : List GrammarRow → List GrammarRow) (permK : List KanjiRow → List KanjiRow)
    (qs : List QuestionDoc) (s : Store) :
    Except String (Nat × List String × List String × Nat) × Store :=
  match failAt 0 with
  | some msg => (.error msg, s)
  | none =>
    let bid := s.nextBatchId
    match insQuestionsTx failAt bid qs 1
        (s.addBatch (grammarListOf permG s) (kanjiListOf permK s)) with
    | .error msg => (.error msg, s)
    | .ok (st, _) => (.ok (bid, grammarListOf permG s, kanjiListOf permK s, qs.length), st)

/-- Number of INSERT statements the question cascade issues for `qs`. -/
def insCountQ (qs : List QuestionDoc) : Nat :=
  qs.foldr (fun q n => 1 + q.options.length + n) 0

/-- Total number of INSERT statements of POST /api/gemini/questions. -/
def numInsertsQ (qs : List QuestionDoc) : Nat := 1 + insCountQ qs

/-- The option rows `insOptionsP` appends, ids counting up from `oId`. -/
def optRows (qid : Nat) (answer : String) : Nat → List String → List OptionRow
  | _, [] => []
  | oId, opt :: rest => ⟨oId, qid, opt, opt == answer⟩ :: optRows qid answer (oId + 1) rest

/-! ## GET /api/exam/today: questions INNER JOIN question_options -/

/-- One row of the exam query (inner join, both sides always present). -/
structure ExamRow where
  question_id : Nat
  question_type : String
  question_text : String
  answer : String
  explanation : String
  option_id : Nat
  option_text : String
  is_correct : Bool
deriving Repr, DecidableEq

def examRowOf (q : QuestionRow) (o : OptionRow) : ExamRow :=
  ⟨q.questionId, q.questionType, q.questionText, q.answer, q.explanation,
    o.optionId, o.optionText, o.isCorrect⟩

/-- SELECT ... FROM questions q JOIN question_options qo ON q.question_id =
qo.question_id WHERE q.batch_id = @batch_id ORDER BY q.question_id, qo.option_id:
a question with no matching option rows contributes no rows at all. -/
def examJoinQ (orows : List OptionRow) : List QuestionRow → List ExamRow
  | [] => []
  | q :: qs =>
    (sortByKey (fun o => o.optionId)
        (orows.filter (fun o => decide (o.questionId = q.questionId)))).map (examRowOf q)
      ++ examJoinQ orows qs

def examJoinRows (s : Store) (bid : Nat) : List ExamRow :=
  examJoinQ s.optionRows
    (sortByKey (fun q => q.questionId) (s.questionRows.filter (fun q => decide (q.batchId = bid))))

/-- Option object pushed under its question in the exam response. -/
structure ExamOption where
  option_id : Nat
  option_text : String
  is_correct : Bool
deriving Repr, DecidableEq

/-- Question object of the exam response. -/
structure ExamQuestion where
  question_id : Nat
  question_type : String
  question_text : String
  answer : String
  explanation : String
  options : List ExamOption
deriving Repr, DecidableEq

def pushOpt (m : List (Nat × ExamQuestion)) (k : Nat) (o : ExamOption) :
    List (Nat × ExamQuestion) :=
  m.map (fun p => if p.1 = k then (p.1, { p.2 with options := p.2.options ++ [o] }) else p)

/-- One iteration of the grouping loop of GET /api/exam/today: register the
question on first sight, then always push the row's option. -/
def stepQ (acc : List (Nat × ExamQuestion)) (r : ExamRow) : List (Nat × ExamQuestion) :=
  let acc' :=
    match alookup acc r.question_id with
    | none => acc ++ [(r.question_id,
        ⟨r.question_id, r.question_type, r.question_text, r.answer, r.explanation, []⟩)]
    | some _ => acc
  pushOpt acc' r.question_id ⟨r.option_id, r.option_text, r.is_correct⟩

/-- The exam response's question list: grouped rows, Object.values in
ascending numeric key order. -/
def examQuestionsOf (s : Store) (bid : Nat) : List ExamQuestion :=
  (sortByKey (fun p => p.1) ((examJoinRows s bid).foldl stepQ [])).map (fun p => p.2)

/-! ## The response sanitizer (both files)

geminiText.match(/```json\s*([\s\S]*?)```/i) || geminiText.match(/```([\s\S]*?)```/i)

Executable reading of the two regexes over `List Char` with JavaScript
semantics: leftmost match position; the backticks and the (case-insensitive)
tag are literal; the greedy \s* consumes the maximal whitespace run (no
backtracking can change it, as a fence contains no whitespace character);
the lazy body ends at the first closing fence.  index.js trims whichever
result it takes; new.js trims only a matched group and returns the full text
untouched when neither regex matches. -/

/-- The backtick character (U+0060). -/
def tick : Char := Char.ofNat 96

def isTick (c : Char) : Bool := c == tick

/-- JavaScript \s (also the WhiteSpace/LineTerminator set String.prototype.trim
uses): tab, LF, VT, FF, CR, space, NBSP, Ogham space mark, the U+2000 block,
LS, PS, NNBSP, MMSP, ideographic space and the BOM. -/
def isWs (c : Char) : Bool :=
  c == ' ' || c == Char.ofNat 9 || c == Char.ofNat 10 || c == Char.ofNat 11 ||
  c == Char.ofNat 12 || c == Char.ofNat 13 || c == Char.ofNat 160 ||
  c == Char.ofNat 0x1680 || (0x2000 ≤ c.toNat && c.toNat ≤ 0x200A) ||
  c == Char.ofNat 0x2028 || c == Char.ofNat 0x2029 || c == Char.ofNat 0x202F ||
  c == Char.ofNat 0x205F || c == Char.ofNat 0x3000 || c == Char.ofNat 0xFEFF

/-- If the text starts with a triple-backtick fence, the remainder. -/
def startsFence : List Char → Option (List Char)
  | c1 :: c2 :: c3 :: rest =>
    if isTick c1 && isTick c2 && isTick c3 then some rest else none
  | _ => none

/-- Split at the first closing fence: the lazy body and what follows it. -/
def splitFence : List Char → Option (List Char × List Char)
  | [] => none
  | c :: rest =>
    match startsFence (c :: rest) with
    | some rest2 => some ([], rest2)
    | none => (splitFence rest).map (fun pr => (c :: pr.1, pr.2))

/-- Case-insensitive match of the literal tag `json`. -/
def matchJsonTag : List Char → Option (List Char)
  | c1 :: c2 :: c3 :: c4 :: rest =>
    if c1.toLower == 'j' && c2.toLower == 's' && c3.toLower == 'o' && c4.toLower == 'n'
    then some rest else none
  | _ => none

/-- Match group 1 of /```json\s*([\s\S]*?)```/i at this position. -/
def jsonFenceAt (s : List Char) : Option (List Char) :=
  (startsFence s).bind fun r1 =>
    (matchJsonTag r1).bind fun r2 =>
      (splitFence (r2.dropWhile isWs)).map (fun pr => pr.1)

/-- Match group 1 of /```([\s\S]*?)```/i at this position. -/
def anyFenceAt (s : List Char) : Option (List Char) :=
  (startsFence s).bind fun r1 => (splitFence r1).map (fun pr => pr.1)

/-- Leftmost match of the tagged-fence regex over the whole text. -/
def findJsonFence : List Char → Option (List Char)
  | [] => none
  | c :: rest =>
    match jsonFenceAt (c :: rest) with
    | some g => some g
    | none => findJsonFence rest

/-- Leftmost match of the untagged-fence regex over the whole text. -/
def findAnyFence : List Char → Option (List Char)
  | [] => none
  | c :: rest =>
    match anyFenceAt (c :: rest) with
    | some g => some g
    | none => findAnyFence rest

/-- String.prototype.trim. -/
def trimWs (l : List Char) : List Char :=
  ((l.dropWhile isWs).reverse.dropWhile isWs).reverse

/-- The sanitizer of index.js: trimmed group of the first matching regex, or
the trimmed full text. -/
def sanitizeIndex (s : List Char) : List Char :=
  match findJsonFence s with
  | some g => trimWs g
  | none =>
    match findAnyFence s with
    | some g => trimWs g
    | none => trimWs s

/-- The sanitizer of new.js: same matching, but the no-match branch returns
the text untrimmed (new.js has no else-trim). -/
def sanitizeNew (s : List Char) : List Char :=
  match findJsonFence s with
  | some g => trimWs g
  | none =>
    match findAnyFence s with
    | some g => trimWs g
    | none => s

/-- A text wrapped in a ```json fence: the tag fence, the body, the closing fence. -/
def mkJsonFence (inner : List Char) : List Char :=
  tick :: tick :: tick :: 'j' :: 's' :: 'o' :: 'n' :: (inner ++ [tick, tick, tick])

/-- Whether the text contains a triple-backtick fence anywhere. -/
def hasFence : List Char → Bool
  | c1 :: c2 :: c3 :: rest =>
    (isTick c1 && isTick c2 && isTick c3) || hasFence (c2 :: c3 :: rest)
  | _ => false

/-- Whether the text ends with a backtick. -/
def endsTick (l : List Char) : Bool :=
  match l.getLast? with
  | some c => isTick c
  | none => false

/-! ## Statement vocabulary for the deduplication claim -/

/-- The truthy child identifiers of a row stream, in stream order. -/
def truthyEids (rows : List JoinRow) : List Nat :=
  rows.filterMap (fun r => if truthy r.ExampleId then some (r.ExampleId.getD 0) else none)

/-- The rows that contribute a vocab entry to the example keyed `e`. -/
def rowsFor (e : Nat) (rows : List JoinRow) : List JoinRow :=
  rows.filter (fun r => truthy r.ExampleId && decide (r.ExampleId.getD 0 = e) && truthy r.VocabId)

/-- The vocab entries those rows push, in order. -/
def vocsFor (e : Nat) (rows : List JoinRow) : List Vocab :=
  (rowsFor e rows).map vocabOfRow

/-- The grandchild identifiers contributing under example `e`. -/
def vidsFor (e : Nat) (rows : List JoinRow) : List Nat :=
  (rowsFor e rows).map (fun r => r.VocabId.getD 0)

/-- All truthy (child id, grandchild id) pairs of a row stream.  A row set
produced by the root-child-grandchild left join never repeats such a pair:
the join emits each (example, vocab) match exactly once, fan-out only
repeats the parent columns. -/
def evPairs (rows : List JoinRow) : List (Nat × Nat) :=
  rows.filterMap (fun r =>
    if truthy r.ExampleId && truthy r.VocabId
    then some (r.ExampleId.getD 0, r.VocabId.getD 0) else none)

/-- Total number of vocab entries of an example list. -/
def totalVoc : List Example → Nat
  | [] => 0
  | e :: es => e.vocab.length + totalVoc es

/-- Concrete store with 5 grammar rows and 10 kanji rows (witness input). -/
def storeC8 : Store :=
  { grammarRows := [⟨1, "g1", "m1", "d1"⟩, ⟨2, "g2", "m2", "d2"⟩, ⟨3, "g3", "m3", "d3"⟩,
      ⟨4, "g4", "m4", "d4"⟩, ⟨5, "g5", "m5", "d5"⟩],
    kanjiRows := [⟨1, "k1"⟩, ⟨2, "k2"⟩, ⟨3, "k3"⟩, ⟨4, "k4"⟩, ⟨5, "k5"⟩, ⟨6, "k6"⟩,
      ⟨7, "k7"⟩, ⟨8, "k8"⟩, ⟨9, "k9"⟩, ⟨10, "k10"⟩],
    nextGrammarId := 6 }

/-- Concrete store holding one batch and one question with zero options
(witness input for the exam read path). -/
def storeC9 : Store :=
  { batchRows := [⟨1, [], []⟩],
    questionRows := [⟨1, 1, "t", "q", "a", "e"⟩],
    nextBatchId := 2, nextQuestionId := 2 }

/-! # Theorems

Generic lemmas about the association-list and sorting helpers, then one
theorem per specification claim. -/

theorem alookup_append {α : Type} (m m' : List (Nat × α)) (k : Nat) :
    alookup (m ++ m') k =
      match alookup m k with
      | some v => some v
      | none => alookup m' k := by
  induction m with
  | nil => simp [alookup]
  | cons p m ih =>
    by_cases h : p.1 = k <;> simp [alookup, h, ih]

theorem alookup_eq_none {α : Type} (m : List (Nat × α)) (k : Nat) :
    alookup m k = none ↔ ∀ p ∈ m, p.1 ≠ k := by
  induction m with
  | nil => simp [alookup]
  | cons p m ih =>
    by_cases h : p.1 = k <;> simp [alookup, h, ih]

theorem alookup_append_singleton_self {α : Type} (m : List (Nat × α)) (k : Nat) (v : α)
    (h : alookup m k = none) : alookup (m ++ [(k, v)]) k = some v := by
  rw [alookup_append, h]; simp [alookup]

theorem alookup_append_singleton_ne {α : Type} (m : List (Nat × α)) (k k' : Nat) (v : α)
    (h : k' ≠ k) : alookup (m ++ [(k', v)]) k = alookup m k := by
  rw [alookup_append]
  cases hm : alookup m k with
  | some w => rfl
  | none => simp [alookup, h]

theorem mem_insertSorted {α : Type} (key : α → Nat) (x a : α) (l : List α) :
    a ∈ insertSorted key x l ↔ a = x ∨ a ∈ l := by
  induction l with
  | nil => simp [insertSorted]
  | cons y ys ih =>
    by_cases h : key x ≤ key y
    · simp [insertSorted, h]
    · simp [insertSorted, h, ih]; tauto

theorem perm_insertSorted {α : Type} (key : α → Nat) (x : α) (l : List α) :
    List.Perm (insertSorted key x l) (x :: l) := by
  induction l with
  | nil => simp [insertSorted]
  | cons y ys ih =>
    by_cases h : key x ≤ key y
    · simp [insertSorted, h]
    · simp only [insertSorted, if_neg h]
      exact ((ih.cons y).trans (List.Perm.swap x y ys))

theorem perm_sortByKey {α : Type} (key : α → Nat) (l : List α) :
    List.Perm (sortByKey key l) l := by
  induction l with
  | nil => simp [sortByKey]
  | cons x xs ih =>
    exact (perm_insertSorted key x (sortByKey key xs)).trans (ih.cons x)

theorem pairwise_insertSorted {α : Type} (key : α → Nat) (x : α) (l : List α)
    (h : l.Pairwise (fun a b => key a ≤ key b)) :
    (insertSorted key x l).Pairwise (fun a b => key a ≤ key b) := by
  induction l with
  | nil => simp [insertSorted]
  | cons y ys ih =>
    rw [List.pairwise_cons] at h
    by_cases hxy : key x ≤ key y
    · rw [insertSorted, if_pos hxy, List.pairwise_cons]
      refine ⟨?_, List.pairwise_cons.mpr h⟩
      intro b hb
      rcases List.mem_cons.mp hb with rfl | hb
      · exact hxy
      · exact le_trans hxy (h.1 b hb)
    · rw [insertSorted, if_neg hxy, List.pairwise_cons]
      refine ⟨?_, ih h.2⟩
      intro b hb
      rcases (mem_insertSorted key x b ys).mp hb with rfl | hb
      · exact le_of_not_le hxy
      · exact h.1 b hb

theorem pairwise_sortByKey {α : Type} (key : α → Nat) (l : List α) :
    (sortByKey key l).Pairwise (fun a b => key a ≤ key b) := by
  induction l with
  | nil => simp [sortByKey]
  | cons x xs ih => exact pairwise_insertSorted key x _ ih

theorem sortByKey_eq_self {α : Type} (key : α → Nat) (l : List α)
    (h : l.Pairwise (fun a b => key a ≤ key b)) : sortByKey key l = l := by
  induction l with
  | nil => rfl
  | cons x xs ih =>
    rw [List.pairwise_cons] at h
    rw [sortByKey, ih h.2]
    cases xs with
    | nil => rfl
    | cons y ys => rw [insertSorted, if_pos (h.1 y (List.mem_cons_self y ys))]

/-! ## Truthiness of absent and zero identifiers (claim C10) -/

theorem truthy_none : truthy none = false := by decide

theorem truthy_some_zero : truthy (some 0) = false := by decide

theorem stepEx_eid_zero (acc : List (Nat × Example)) (r : JoinRow)
    (h : r.ExampleId = some 0) : stepEx acc r = acc := by
  simp [stepEx, h, truthy_some_zero]

theorem stepEx_eid_none (acc : List (Nat × Example)) (r : JoinRow)
    (h : r.ExampleId = none) : stepEx acc r = acc := by
  simp [stepEx, h, truthy_none]

theorem stepEx_vid_zero (acc : List (Nat × Example)) (r : JoinRow)
    (h : r.VocabId = some 0) :
    stepEx acc r = stepEx acc { r with VocabId := none } := by
  simp [stepEx, h, truthy_some_zero, truthy_none, vocabOfRow]

theorem stepAll_eid_zero (acc : List (Nat × GrammarN)) (r : JoinRow)
    (h : r.ExampleId = some 0) :
    stepAll acc r = stepAll acc { r with ExampleId := none } := by
  simp [stepAll, h, truthy_some_zero, truthy_none]

theorem stepAll_vid_zero (acc : List (Nat × GrammarN)) (r : JoinRow)
    (h : r.VocabId = some 0) :
    stepAll acc r = stepAll acc { r with VocabId := none } := by
  have hnode : addExampleToNode r = addExampleToNode { r with VocabId := none } := by
    funext g
    simp [addExampleToNode, h, truthy_some_zero, truthy_none, vocabOfRow]
  simp only [stepAll, hnode]

theorem foldl_congr_single {α β : Type} (f : β → α → β) (pre post : List α) (x y : α) (i : β)
    (h : ∀ acc, f acc x = f acc y) :
    (pre ++ x :: post).foldl f i = (pre ++ y :: post).foldl f i := by
  simp [List.foldl_append, List.foldl_cons, h]

theorem reconstructGrammar_congr_single (pre post : List JoinRow) (x y : JoinRow)
    (hc : x.Concept = y.Concept) (hm : x.Meaning = y.Meaning) (hd : x.Details = y.Details)
    (h : ∀ acc, stepEx acc x = stepEx acc y) :
    reconstructGrammar (pre ++ x :: post) = reconstructGrammar (pre ++ y :: post) := by
  cases pre with
  | nil =>
    simp only [List.nil_append, reconstructGrammar, hc, hm, hd]
    rw [show (x :: post).foldl stepEx [] = (y :: post).foldl stepEx [] from
      foldl_congr_single stepEx [] post x y [] h]
  | cons p pre' =>
    simp only [List.cons_append, reconstructGrammar]
    rw [show (p :: (pre' ++ x :: post)).foldl stepEx [] =
          (p :: (pre' ++ y :: post)).foldl stepEx [] from
      foldl_congr_single stepEx (p :: pre') post x y [] h]

theorem reconstructAll_congr_single (pre post : List JoinRow) (x y : JoinRow)
    (h : ∀ acc, stepAll acc x = stepAll acc y) :
    reconstructAll (pre ++ x :: post) = reconstructAll (pre ++ y :: post) := by
  unfold reconstructAll
  rw [foldl_congr_single stepAll pre post x y [] h]

/-- C10: the reconstructors test child and grandchild identifier presence by
JavaScript truthiness, so a row whose ExampleId (resp. VocabId) column holds
the integer 0 contributes no child node (resp. no leaf entry) and behaves
exactly as if the column were NULL, in both the single-root and the
multi-root transform. -/
theorem c10_zero_id_is_absent (pre post : List JoinRow) (r : JoinRow)
    (acc : List (Nat × Example)) :
    (r.ExampleId = some 0 →
      stepEx acc r = acc ∧
      reconstructGrammar (pre ++ r :: post) =
        reconstructGrammar (pre ++ { r with ExampleId := none } :: post) ∧
      reconstructAll (pre ++ r :: post) =
        reconstructAll (pre ++ { r with ExampleId := none } :: post)) ∧
    (r.VocabId = some 0 →
      stepEx acc r = stepEx acc { r with VocabId := none } ∧
      reconstructGrammar (pre ++ r :: post) =
        reconstructGrammar (pre ++ { r with VocabId := none } :: post) ∧
      reconstructAll (pre ++ r :: post) =
        reconstructAll (pre ++ { r with VocabId := none } :: post)) := by
  constructor
  · intro h
    refine ⟨stepEx_eid_zero acc r h, ?_, ?_⟩
    · exact reconstructGrammar_congr_single pre post r _ rfl rfl rfl
        (fun acc => by rw [stepEx_eid_zero acc r h, stepEx_eid_none acc _ rfl])
    · exact reconstructAll_congr_single pre post r _ (fun acc => stepAll_eid_zero acc r h)
  · intro h
    refine ⟨stepEx_vid_zero acc r h, ?_, ?_⟩
    · exact reconstructGrammar_congr_single pre post r _ rfl rfl rfl
        (fun acc => stepEx_vid_zero acc r h)
    · exact reconstructAll_congr_single pre post r _ (fun acc => stepAll_vid_zero acc r h)

/-- Witness for C10 at a concrete row with ExampleId = 0 and VocabId = 0. -/
theorem c10_zero_id_is_absent_witness :
    stepEx [] ⟨1, "c", "m", "d", some 0, some "j", some "r", some "e", some 0,
        some "w", some "x", some "y"⟩ = [] ∧
    reconstructGrammar [⟨1, "c", "m", "d", some 0, some "j", some "r", some "e", some 0,
        some "w", some "x", some "y"⟩] =
      reconstructGrammar [⟨1, "c", "m", "d", none, some "j", some "r", some "e", some 0,
        some "w", some "x", some "y"⟩] := by
  have h := c10_zero_id_is_absent [] []
    ⟨1, "c", "m", "d", some 0, some "j", some "r", some "e", some 0,
      some "w", some "x", some "y"⟩ []
  exact ⟨(h.1 rfl).1, (h.1 rfl).2.1⟩

/-! ## Transaction dichotomy: a cascade either consults only non-failing
inserts and commits the pure write, or stops at a failing insert (claim C2) -/

theorem insCountE_cons (e : Example) (es : List Example) :
    insCountE (e :: es) = 1 + e.vocab.length + insCountE es := rfl

theorem insCountQ_cons (q : QuestionDoc) (qs : List QuestionDoc) :
    insCountQ (q :: qs) = 1 + q.options.length + insCountQ qs := rfl

theorem insVocabs_cons (eid : Nat) (v : Vocab) (vs : List Vocab) (st : Store) :
    insVocabs eid (v :: vs) st = insVocabs eid vs (st.addVocab eid v) := rfl

theorem insExamples_cons (gid : Nat) (e : Example) (es : List Example) (st : Store) :
    insExamples gid (e :: es) st =
      insExamples gid es (insVocabs st.nextExampleId e.vocab (st.addExample gid e)) := rfl

theorem insQuestionDocs_cons (bid : Nat) (q : QuestionDoc) (qs : List QuestionDoc) (st : Store) :
    insQuestionDocs bid (q :: qs) st = insQuestionDocs bid qs (insertQuestionP bid q st) := rfl

theorem insCountE_nil : insCountE [] = 0 := rfl

theorem insCountQ_nil : insCountQ [] = 0 := rfl

theorem insVocabTx_cases (failAt : Nat → Option String) (eid : Nat) :
    ∀ (vs : List Vocab) (k : Nat) (st : Store),
      (∃ msg j, k ≤ j ∧ j < k + vs.length ∧ failAt j = some msg ∧
        insVocabTx failAt eid vs k st = .error msg) ∨
      ((∀ j, k ≤ j → j < k + vs.length → failAt j = none) ∧
        insVocabTx failAt eid vs k st = .ok (insVocabs eid vs st, k + vs.length)) := by
  intro vs
  induction vs with
  | nil =>
    intro k st
    right
    refine ⟨fun j h1 h2 => absurd h2 (by simp only [List.length_nil]; omega), ?_⟩
    simp [insVocabTx, insVocabs]
  | cons v vs ih =>
    intro k st
    cases hk : failAt k with
    | some msg =>
      left
      exact ⟨msg, k, le_refl k, by simp only [List.length_cons]; omega, hk,
        by simp [insVocabTx, hk]⟩
    | none =>
      rcases ih (k + 1) (st.addVocab eid v) with ⟨msg, j, hj1, hj2, hja, hres⟩ | ⟨hall, hres⟩
      · left
        refine ⟨msg, j, by omega, by simp only [List.length_cons]; omega, hja, ?_⟩
        simp [insVocabTx, hk, hres]
      · right
        constructor
        · intro j h1 h2
          rcases Nat.eq_or_lt_of_le h1 with rfl | h1'
          · exact hk
          · exact hall j h1' (by simp only [List.length_cons] at h2; omega)
        · simp only [insVocabTx, hk, hres, insVocabs_cons]
          have hn : k + 1 + vs.length = k + (v :: vs).length := by
            simp only [List.length_cons]; omega
          rw [hn]

theorem insExamplesTx_cases (failAt : Nat → Option String) (gid : Nat) :
    ∀ (es : List Example) (k : Nat) (st : Store),
      (∃ msg j, k ≤ j ∧ j < k + insCountE es ∧ failAt j = some msg ∧
        insExamplesTx failAt gid es k st = .error msg) ∨
      ((∀ j, k ≤ j → j < k + insCountE es → failAt j = none) ∧
        insExamplesTx failAt gid es k st = .ok (insExamples gid es st, k + insCountE es)) := by
  intro es
  induction es with
  | nil =>
    intro k st
    right
    refine ⟨fun j h1 h2 => absurd h2 (by rw [insCountE_nil]; omega), ?_⟩
    simp [insExamplesTx, insExamples, insCountE_nil]
  | cons e es ih =>
    intro k st
    cases hk : failAt k with
    | some msg =>
      left
      exact ⟨msg, k, le_refl k, by rw [insCountE_cons]; omega, hk, by simp [insExamplesTx, hk]⟩
    | none =>
      rcases insVocabTx_cases failAt st.nextExampleId e.vocab (k + 1) (st.addExample gid e) with
        ⟨msg, j, hj1, hj2, hja, hres⟩ | ⟨hallv, hres⟩
      · left
        refine ⟨msg, j, by omega, by rw [insCountE_cons]; omega, hja, ?_⟩
        simp [insExamplesTx, hk, hres]
      · rcases ih (k + 1 + e.vocab.length)
            (insVocabs st.nextExampleId e.vocab (st.addExample gid e)) with
          ⟨msg, j, hj1, hj2, hja, hres2⟩ | ⟨halle, hres2⟩
        · left
          refine ⟨msg, j, by omega, by rw [insCountE_cons]; omega, hja, ?_⟩
          simp [insExamplesTx, hk, hres, hres2]
        · right
          constructor
          · intro j h1 h2
            rw [insCountE_cons] at h2
            rcases Nat.eq_or_lt_of_le h1 with rfl | h1'
            · exact hk
            · by_cases hj : j < k + 1 + e.vocab.length
              · exact hallv j h1' hj
              · exact halle j (by omega) (by omega)
          · simp only [insExamplesTx, hk, hres, hres2, insExamples_cons]
            have hn : k + 1 + e.vocab.length + insCountE es = k + insCountE (e :: es) := by
              rw [insCountE_cons]; omega
            rw [hn]

theorem grammarRouteTx_cases (failAt : Nat → Option String) (doc : GrammarDoc) (s : Store) :
    (∃ msg j, j < numInsertsG doc ∧ failAt j = some msg ∧
      grammarRouteTx failAt doc s = (.error msg, s)) ∨
    ((∀ j, j < numInsertsG doc → failAt j = none) ∧
      grammarRouteTx failAt doc s =
        (.ok ((writeGrammarDoc doc s).2, doc), (writeGrammarDoc doc s).1)) := by
  cases hk : failAt 0 with
  | some msg =>
    left
    exact ⟨msg, 0, by simp only [numInsertsG]; omega, hk, by simp [grammarRouteTx, hk]⟩
  | none =>
    rcases insExamplesTx_cases failAt s.nextGrammarId doc.examples 1
        (s.addGrammar doc.concept doc.meaning doc.details) with
      ⟨msg, j, hj1, hj2, hja, hres⟩ | ⟨hall, hres⟩
    · left
      refine ⟨msg, j, by simp only [numInsertsG]; omega, hja, ?_⟩
      simp [grammarRouteTx, hk, hres]
    · right
      constructor
      · intro j hj
        rcases Nat.eq_zero_or_pos j with rfl | hj'
        · exact hk
        · exact hall j hj' (by simp only [numInsertsG] at hj; omega)
      · simp [grammarRouteTx, hk, hres, writeGrammarDoc]

theorem insOptionsTx_cases (failAt : Nat → Option String) (qid : Nat) (answer : String) :
    ∀ (opts : List String) (k : Nat) (st : Store),
      (∃ msg j, k ≤ j ∧ j < k + opts.length ∧ failAt j = some msg ∧
        insOptionsTx failAt qid answer opts k st = .error msg) ∨
      ((∀ j, k ≤ j → j < k + opts.length → failAt j = none) ∧
        insOptionsTx failAt qid answer opts k st =
          .ok (insOptionsP qid answer opts st, k + opts.length)) := by
  intro opts
  induction opts with
  | nil =>
    intro k st
    right
    refine ⟨fun j h1 h2 => absurd h2 (by simp only [List.length_nil]; omega), ?_⟩
    simp [insOptionsTx, insOptionsP]
  | cons o os ih =>
    intro k st
    cases hk : failAt k with
    | some msg =>
      left
      exact ⟨msg, k, le_refl k, by simp only [List.length_cons]; omega, hk,
        by simp [insOptionsTx, hk]⟩
    | none =>
      rcases ih (k + 1) (st.addOption qid o (o == answer)) with
        ⟨msg, j, hj1, hj2, hja, hres⟩ | ⟨hall, hres⟩
      · left
        refine ⟨msg, j, by omega, by simp only [List.length_cons]; omega, hja, ?_⟩
        simp [insOptionsTx, hk, hres]
      · right
        constructor
        · intro j h1 h2
          rcases Nat.eq_or_lt_of_le h1 with rfl | h1'
          · exact hk
          · exact hall j h1' (by simp only [List.length_cons] at h2; omega)
        · simp only [insOptionsTx, hk, hres]
          rw [show insOptionsP qid answer os (st.addOption qid o (o == answer)) =
                insOptionsP qid answer (o :: os) st from rfl]
          have hn : k + 1 + os.length = k + (o :: os).length := by
            simp only [List.length_cons]; omega
          rw [hn]

theorem insQuestionsTx_cases (failAt : Nat → Option String) (bid : Nat) :
    ∀ (qs : List QuestionDoc) (k : Nat) (st : Store),
      (∃ msg j, k ≤ j ∧ j < k + insCountQ qs ∧ failAt j = some msg ∧
        insQuestionsTx failAt bid qs k st = .error msg) ∨
      ((∀ j, k ≤ j → j < k + insCountQ qs → failAt j = none) ∧
        insQuestionsTx failAt bid qs k st = .ok (insQuestionDocs bid qs st, k + insCountQ qs)) := by
  intro qs
  induction qs with
  | nil =>
    intro k st
    right
    refine ⟨fun j h1 h2 => absurd h2 (by rw [insCountQ_nil]; omega), ?_⟩
    simp [insQuestionsTx, insQuestionDocs, insCountQ_nil]
  | cons q qs ih =>
    intro k st
    cases hk : failAt k with
    | some msg =>
      left
      exact ⟨msg, k, le_refl k, by rw [insCountQ_cons]; omega, hk, by simp [insQuestionsTx, hk]⟩
    | none =>
      rcases insOptionsTx_cases failAt st.nextQuestionId q.answer q.options (k + 1)
          (st.addQuestion bid q) with ⟨msg, j, hj1, hj2, hja, hres⟩ | ⟨hallo, hres⟩
      · left
        refine ⟨msg, j, by omega, by rw [insCountQ_cons]; omega, hja, ?_⟩
        simp [insQuestionsTx, hk, hres]
      · rcases ih (k + 1 + q.options.length)
            (insOptionsP st.nextQuestionId q.answer q.options (st.addQuestion bid q)) with
          ⟨msg, j, hj1, hj2, hja, hres2⟩ | ⟨hallq, hres2⟩
        · left
          refine ⟨msg, j, by omega, by rw [insCountQ_cons]; omega, hja, ?_⟩
          simp [insQuestionsTx, hk, hres, hres2]
        · right
          constructor
          · intro j h1 h2
            rw [insCountQ_cons] at h2
            rcases Nat.eq_or_lt_of_le h1 with rfl | h1'
            · exact hk
            · by_cases hj : j < k + 1 + q.options.length
              · exact hallo j h1' hj
              · exact hallq j (by omega) (by omega)
          · simp only [insQuestionsTx, hk, hres, hres2, insQuestionDocs_cons]
            have hn : k + 1 + q.options.length + insCountQ qs = k + insCountQ (q :: qs) := by
              rw [insCountQ_cons]; omega
            rw [hn, insertQuestionP]

theorem questionsRouteTx_cases (failAt : Nat → Option String)
    (permG : List GrammarRow → List GrammarRow) (permK : List KanjiRow → List KanjiRow)
    (qs : List QuestionDoc) (s : Store) :
    (∃ msg j, j < numInsertsQ qs ∧ failAt j = some msg ∧
      questionsRouteTx failAt permG permK qs s = (.error msg, s)) ∨
    ((∀ j, j < numInsertsQ qs → failAt j = none) ∧
      questionsRouteTx failAt permG permK qs s =
        (.ok ((writeQuestionBatch permG permK qs s).2, grammarListOf permG s,
              kanjiListOf permK s, qs.length),
          (writeQuestionBatch permG permK qs s).1)) := by
  cases hk : failAt 0 with
  | some msg =>
    left
    exact ⟨msg, 0, by simp only [numInsertsQ]; omega, hk, by simp [questionsRouteTx, hk]⟩
  | none =>
    rcases insQuestionsTx_cases failAt s.nextBatchId qs 1
        (s.addBatch (grammarListOf permG s) (kanjiListOf permK s)) with
      ⟨msg, j, hj1, hj2, hja, hres⟩ | ⟨hall, hres⟩
    · left
      refine ⟨msg, j, by simp only [numInsertsQ]; omega, hja, ?_⟩
      simp [questionsRouteTx, hk, hres]
    · right
      constructor
      · intro j hj
        rcases Nat.eq_zero_or_pos j with rfl | hj'
        · exact hk
        · exact hall j hj' (by simp only [numInsertsQ] at hj; omega)
      · simp [questionsRouteTx, hk, hres, writeQuestionBatch]

/-- C2: for every cascading write (grammar cascade of POST /api/gemini,
question cascade of POST /api/gemini/questions) in which any insert at any
hierarchy level fails, the route takes the catch/rollback branch: the
committed store is exactly the prior store (so no partial hierarchy is ever
visible to a reader, who only sees committed state), and the call fails
carrying the failing insert's underlying error as its cause. -/
theorem c2_insert_failure_rolls_back :
    (∀ (failAt : Nat → Option String) (doc : GrammarDoc) (s : Store),
      (∃ k, k < numInsertsG doc ∧ (failAt k).isSome) →
      ∃ msg k, k < numInsertsG doc ∧ failAt k = some msg ∧
        grammarRouteTx failAt doc s = (.error msg, s)) ∧
    (∀ (failAt : Nat → Option String) (permG : List GrammarRow → List GrammarRow)
        (permK : List KanjiRow → List KanjiRow) (qs : List QuestionDoc) (s : Store),
      (∃ k, k < numInsertsQ qs ∧ (failAt k).isSome) →
      ∃ msg k, k < numInsertsQ qs ∧ failAt k = some msg ∧
        questionsRouteTx failAt permG permK qs s = (.error msg, s)) := by
  constructor
  · intro failAt doc s h
    rcases grammarRouteTx_cases failAt doc s with ⟨msg, j, hj, hja, hres⟩ | ⟨hall, _⟩
    · exact ⟨msg, j, hj, hja, hres⟩
    · obtain ⟨k, hk, hsome⟩ := h
      rw [hall k hk] at hsome
      exact absurd hsome (by simp)
  · intro failAt permG permK qs s h
    rcases questionsRouteTx_cases failAt permG permK qs s with
      ⟨msg, j, hj, hja, hres⟩ | ⟨hall, _⟩
    · exact ⟨msg, j, hj, hja, hres⟩
    · obtain ⟨k, hk, hsome⟩ := h
      rw [hall k hk] at hsome
      exact absurd hsome (by simp)

/-- Witness for C2: a concrete failing write is rolled back with its cause. -/
theorem c2_insert_failure_rolls_back_witness :
    grammarRouteTx (fun _ => some "boom") ⟨"c", "m", "d", []⟩ store0 =
      (Except.error "boom", store0) := by
  obtain ⟨msg, k, hk, hfa, heq⟩ :=
    c2_insert_failure_rolls_back.1 (fun _ => some "boom") ⟨"c", "m", "d", []⟩ store0
      ⟨0, by decide, rfl⟩
  injection hfa with hmsg
  rw [← hmsg] at heq
  exact heq

/-! ## Closed forms of the question-path writes (claims C4, C6, C8) -/

theorem insOptionsP_optionRows (qid : Nat) (a : String) :
    ∀ (opts : List String) (st : Store),
      (insOptionsP qid a opts st).optionRows =
        st.optionRows ++ optRows qid a st.nextOptionId opts := by
  intro opts
  induction opts with
  | nil => intro st; simp [insOptionsP, optRows]
  | cons o os ih =>
    intro st
    rw [show insOptionsP qid a (o :: os) st =
          insOptionsP qid a os (st.addOption qid o (o == a)) from rfl, ih]
    simp [Store.addOption, optRows]

theorem insOptionsP_questionRows (qid : Nat) (a : String) :
    ∀ (opts : List String) (st : Store),
      (insOptionsP qid a opts st).questionRows = st.questionRows := by
  intro opts
  induction opts with
  | nil => intro st; simp [insOptionsP]
  | cons o os ih =>
    intro st
    rw [show insOptionsP qid a (o :: os) st =
          insOptionsP qid a os (st.addOption qid o (o == a)) from rfl, ih]
    rfl

theorem insOptionsP_batchRows (qid : Nat) (a : String) :
    ∀ (opts : List String) (st : Store),
      (insOptionsP qid a opts st).batchRows = st.batchRows := by
  intro opts
  induction opts with
  | nil => intro st; simp [insOptionsP]
  | cons o os ih =>
    intro st
    rw [show insOptionsP qid a (o :: os) st =
          insOptionsP qid a os (st.addOption qid o (o == a)) from rfl, ih]
    rfl

theorem insertQuestionP_optionRows (bid : Nat) (q : QuestionDoc) (st : Store) :
    (insertQuestionP bid q st).optionRows =
      st.optionRows ++ optRows st.nextQuestionId q.answer st.nextOptionId q.options := by
  rw [insertQuestionP, insOptionsP_optionRows]
  rfl

theorem insertQuestionP_questionRows (bid : Nat) (q : QuestionDoc) (st : Store) :
    (insertQuestionP bid q st).questionRows =
      st.questionRows ++
        [⟨st.nextQuestionId, bid, q.question_type, q.question, q.answer, q.explanation⟩] := by
  rw [insertQuestionP, insOptionsP_questionRows]
  rfl

theorem insertQuestionP_batchRows (bid : Nat) (q : QuestionDoc) (st : Store) :
    (insertQuestionP bid q st).batchRows = st.batchRows := by
  rw [insertQuestionP, insOptionsP_batchRows]
  rfl

theorem insQuestionDocs_batchRows (bid : Nat) :
    ∀ (qs : List QuestionDoc) (st : Store),
      (insQuestionDocs bid qs st).batchRows = st.batchRows := by
  intro qs
  induction qs with
  | nil => intro st; simp [insQuestionDocs]
  | cons q qs ih =>
    intro st
    rw [insQuestionDocs_cons, ih, insertQuestionP_batchRows]

theorem insQuestionDocs_questionRows_length (bid : Nat) :
    ∀ (qs : List QuestionDoc) (st : Store),
      (insQuestionDocs bid qs st).questionRows.length =
        st.questionRows.length + qs.length := by
  intro qs
  induction qs with
  | nil => intro st; simp [insQuestionDocs]
  | cons q qs ih =>
    intro st
    rw [insQuestionDocs_cons, ih, insertQuestionP_questionRows]
    simp [List.length_append]
    omega

/-- The no-failure run of POST /api/gemini/questions: the ok response and the
committed store of the pure write. -/
theorem questionsRouteTx_noFail (permG : List GrammarRow → List GrammarRow)
    (permK : List KanjiRow → List KanjiRow) (qs : List QuestionDoc) (s : Store) :
    questionsRouteTx (fun _ => none) permG permK qs s =
      (.ok (s.nextBatchId, grammarListOf permG s, kanjiListOf permK s, qs.length),
        insQuestionDocs s.nextBatchId qs
          (s.addBatch (grammarListOf permG s) (kanjiListOf permK s))) := by
  rcases questionsRouteTx_cases (fun _ => none) permG permK qs s with
    ⟨msg, j, _, hja, _⟩ | ⟨_, hres⟩
  · exact absurd hja (by simp)
  · exact hres

/-- The no-failure run of POST /api/gemini: the ok response carries the root
id and the echoed document, and the committed store is the pure cascade. -/
theorem grammarRouteTx_noFail (doc : GrammarDoc) (s : Store) :
    grammarRouteTx (fun _ => none) doc s =
      (.ok (s.nextGrammarId, doc),
        insExamples s.nextGrammarId doc.examples
          (s.addGrammar doc.concept doc.meaning doc.details)) := by
  rcases grammarRouteTx_cases (fun _ => none) doc s with
    ⟨msg, j, _, hja, _⟩ | ⟨_, hres⟩
  · exact absurd hja (by simp)
  · exact hres

/-! ## Claim C4: there is no schema validator in the code -/

/-- Counterexample to C4: a QuestionSetDocument that is not a sequence of
exactly 9 question objects (here: the empty sequence) is NOT rejected before
any store write.  The route succeeds, reports count 0, and commits a
QuestionBatch row; no SchemaMismatchError (or any error) is raised. -/
theorem c4_counterexample :
    (questionsRouteTx (fun _ => none) id id [] store0).1 =
      Except.ok (1, ([], [], 0)) ∧
    (questionsRouteTx (fun _ => none) id id [] store0).2.batchRows = [⟨1, [], []⟩] ∧
    (questionsRouteTx (fun _ => none) id id [] store0).2.questionRows = [] := by
  refine ⟨rfl, rfl, rfl⟩

/-- C4 amended: the code performs no structural validation at all.  Only
JSON parsing can fail (surfaced as a parse error, in index.js before any
store write); once a question array parses, the write path accepts it
whatever its length and shape: the route succeeds and persists exactly one
question row per array element, with no 9-element check and no field/type
checks before the inserts. -/
theorem c4_no_schema_validation (qs : List QuestionDoc)
    (permG : List GrammarRow → List GrammarRow) (permK : List KanjiRow → List KanjiRow)
    (s : Store) :
    (questionsRouteTx (fun _ => none) permG permK qs s).1 =
      Except.ok (s.nextBatchId, grammarListOf permG s, kanjiListOf permK s, qs.length) ∧
    (questionsRouteTx (fun _ => none) permG permK qs s).2.questionRows.length =
      s.questionRows.length + qs.length := by
  rw [questionsRouteTx_noFail]
  refine ⟨rfl, ?_⟩
  simp only [insQuestionDocs_questionRows_length]
  rfl

/-! ## Claim C6: the stored is_correct flags -/

/-- The option rows of one question, projected to (question id, text, flag),
are exactly the option texts paired with text-equality against the answer. -/
theorem optRows_map (qid : Nat) (a : String) :
    ∀ (opts : List String) (oId : Nat),
      (optRows qid a oId opts).map (fun r => (r.questionId, r.optionText, r.isCorrect)) =
        opts.map (fun opt => (qid, opt, opt == a)) := by
  intro opts
  induction opts with
  | nil => intro oId; simp [optRows]
  | cons o os ih => intro oId; simp [optRows, ih]

/-- The number of true flags among one question's option rows is the number
of option texts equal to the answer. -/
theorem optRows_countP (qid : Nat) (a : String) :
    ∀ (opts : List String) (oId : Nat),
      (optRows qid a oId opts).countP (fun r => r.isCorrect) = opts.count a := by
  intro opts
  induction opts with
  | nil => intro oId; simp [optRows]
  | cons o os ih =>
    intro oId
    simp only [optRows, List.countP_cons, ih, List.count_cons]

/-- Counterexample to C6: a persisted question whose generator-supplied
answer text ("c") matches none of its options gets ZERO options flagged
correct, not exactly one.  (The write path never validates that the answer
occurs among the options.) -/
theorem c6_counterexample :
    ((insertQuestionP 1 ⟨"t", "q", ["a", "b"], "c", "e"⟩ store0).optionRows.filter
        (fun r => decide (r.questionId = 1))).countP (fun r => r.isCorrect) = 0 ∧
    (insertQuestionP 1 ⟨"t", "q", ["a", "b"], "c", "e"⟩ store0).questionRows.map
        (fun r => r.questionId) = [1] := by
  refine ⟨rfl, rfl⟩

/-- C6 amended: each stored option's is_correct flag is recomputed by
structural text equality with the question's canonical answer (never trusted
from the generator), so the number of options flagged correct equals the
number of option texts equal to the answer — exactly one precisely when the
answer occurs exactly once among the options, which the code does not
enforce. -/
theorem c6_is_correct_recomputed (bid : Nat) (q : QuestionDoc) (st : Store) :
    ((insertQuestionP bid q st).optionRows.drop st.optionRows.length).map
        (fun r => (r.questionId, r.optionText, r.isCorrect)) =
      q.options.map (fun opt => (st.nextQuestionId, opt, opt == q.answer)) ∧
    ((insertQuestionP bid q st).optionRows.drop st.optionRows.length).countP
        (fun r => r.isCorrect) = q.options.count q.answer := by
  rw [insertQuestionP_optionRows, List.drop_left]
  exact ⟨optRows_map _ _ _ _, optRows_countP _ _ _ _⟩

/-! ## Claim C8: batch sampling sizes -/

/-- C8: against a store holding at least 5 grammar rows and at least 10
kanji rows, a question-generation call draws exactly 5 grammar concepts and
exactly 10 kanji as two samples without replacement (no row drawn twice)
from the two independent pools, and the committed QuestionBatch row stores
lists of length 5 and 10.  The store-side ORDER BY NEWID() shuffles are the
caller-supplied reorderings `permG`, `permK`. -/
theorem c8_batch_sampling (s : Store) (permG : List GrammarRow → List GrammarRow)
    (permK : List KanjiRow → List KanjiRow) (qs : List QuestionDoc)
    (hpg : List.Perm (permG s.grammarRows) s.grammarRows)
    (hpk : List.Perm (permK s.kanjiRows) s.kanjiRows)
    (h5 : 5 ≤ s.grammarRows.length) (h10 : 10 ≤ s.kanjiRows.length)
    (hndg : s.grammarRows.Nodup) (hndk : s.kanjiRows.Nodup) :
    (sampleGrammar permG s).length = 5 ∧ (sampleKanji permK s).length = 10 ∧
    (sampleGrammar permG s).Nodup ∧ (sampleKanji permK s).Nodup ∧
    ∃ row : QuestionBatchRow,
      row ∈ (questionsRouteTx (fun _ => none) permG permK qs s).2.batchRows ∧
      row.batchId = s.nextBatchId ∧
      row.grammarList.length = 5 ∧ row.kanjiList.length = 10 := by
  have hg5 : (sampleGrammar permG s).length = 5 := by
    rw [sampleGrammar, List.length_take, hpg.length_eq]
    omega
  have hk10 : (sampleKanji permK s).length = 10 := by
    rw [sampleKanji, List.length_take, hpk.length_eq]
    omega
  refine ⟨hg5, hk10, ?_, ?_, ?_⟩
  · exact List.Nodup.sublist (List.take_sublist 5 _) (hpg.nodup_iff.mpr hndg)
  · exact List.Nodup.sublist (List.take_sublist 10 _) (hpk.nodup_iff.mpr hndk)
  · refine ⟨⟨s.nextBatchId, grammarListOf permG s, kanjiListOf permK s⟩, ?_, rfl, ?_, ?_⟩
    · rw [questionsRouteTx_noFail]
      simp only [insQuestionDocs_batchRows]
      simp [Store.addBatch]
    · simp [grammarListOf, hg5]
    · simp [kanjiListOf, hk10]

/-- Witness for C8 at a concrete 5-grammar-row, 10-kanji-row store. -/
theorem c8_batch_sampling_witness :
    (sampleGrammar id storeC8).length = 5 ∧ (sampleKanji id storeC8).length = 10 ∧
    (sampleGrammar id storeC8).Nodup ∧ (sampleKanji id storeC8).Nodup ∧
    ∃ row : QuestionBatchRow,
      row ∈ (questionsRouteTx (fun _ => none) id id [] storeC8).2.batchRows ∧
      row.batchId = storeC8.nextBatchId ∧
      row.grammarList.length = 5 ∧ row.kanjiList.length = 10 :=
  c8_batch_sampling storeC8 id id [] (List.Perm.refl _) (List.Perm.refl _)
    (by decide) (by decide) (by decide) (by decide)

/-! ## Claim C9: the exam read path uses an inner join -/

theorem pushOpt_keys (m : List (Nat × ExamQuestion)) (k : Nat) (o : ExamOption) :
    (pushOpt m k o).map Prod.fst = m.map Prod.fst := by
  induction m with
  | nil => rfl
  | cons p m ih =>
    by_cases h : p.1 = k
    all_goals simp only [pushOpt, List.map_cons, h] at *
    all_goals simp [h, ih]

theorem pushOpt_qid (m : List (Nat × ExamQuestion)) (k : Nat) (o : ExamOption)
    (h : ∀ p ∈ m, p.2.question_id = p.1) :
    ∀ p ∈ pushOpt m k o, p.2.question_id = p.1 := by
  intro p hp
  rcases List.mem_map.mp hp with ⟨p', hp', rfl⟩
  by_cases hk : p'.1 = k
  · rw [if_pos hk]
    simpa using h p' hp'
  · rw [if_neg hk]
    exact h p' hp'

theorem stepQ_keys (acc : List (Nat × ExamQuestion)) (r : ExamRow) :
    (stepQ acc r).map Prod.fst = acc.map Prod.fst ∨
    (stepQ acc r).map Prod.fst = acc.map Prod.fst ++ [r.question_id] := by
  unfold stepQ
  cases h : alookup acc r.question_id with
  | none =>
    right
    rw [pushOpt_keys]
    simp
  | some _ =>
    left
    rw [pushOpt_keys]

theorem stepQ_qid (acc : List (Nat × ExamQuestion)) (r : ExamRow)
    (h : ∀ p ∈ acc, p.2.question_id = p.1) :
    ∀ p ∈ stepQ acc r, p.2.question_id = p.1 := by
  unfold stepQ
  cases halk : alookup acc r.question_id with
  | none =>
    refine pushOpt_qid _ _ _ ?_
    intro p hp
    rcases List.mem_append.mp hp with hp' | hp'
    · exact h p hp'
    · rcases List.mem_singleton.mp hp' with rfl
      rfl
  | some _ => exact pushOpt_qid _ _ _ h

theorem mem_keys_foldl_stepQ :
    ∀ (rows : List ExamRow) (acc : List (Nat × ExamQuestion)) (e : Nat),
      e ∈ (rows.foldl stepQ acc).map Prod.fst →
      e ∈ acc.map Prod.fst ∨ e ∈ rows.map (fun r => r.question_id) := by
  intro rows
  induction rows with
  | nil => intro acc e h; exact Or.inl h
  | cons r rows ih =>
    intro acc e h
    rcases ih (stepQ acc r) e h with h' | h'
    · rcases stepQ_keys acc r with hk | hk
      · rw [hk] at h'
        exact Or.inl h'
      · rw [hk] at h'
        rcases List.mem_append.mp h' with h'' | h''
        · exact Or.inl h''
        · rcases List.mem_singleton.mp h'' with rfl
          exact Or.inr (by simp)
    · exact Or.inr (by simp [h'])

theorem foldl_stepQ_qid (rows : List ExamRow) :
    ∀ (acc : List (Nat × ExamQuestion)), (∀ p ∈ acc, p.2.question_id = p.1) →
      ∀ p ∈ rows.foldl stepQ acc, p.2.question_id = p.1 := by
  induction rows with
  | nil => intro acc h; exact h
  | cons r rows ih => intro acc h; exact ih (stepQ acc r) (stepQ_qid acc r h)

theorem mem_examJoinQ (orows : List OptionRow) :
    ∀ (qrows : List QuestionRow) (r : ExamRow), r ∈ examJoinQ orows qrows →
      ∃ q ∈ qrows, ∃ o ∈ orows.filter (fun o => decide (o.questionId = q.questionId)),
        r = examRowOf q o := by
  intro qrows
  induction qrows with
  | nil => intro r h; simp [examJoinQ] at h
  | cons q qs ih =>
    intro r h
    rcases List.mem_append.mp h with h' | h'
    · rcases List.mem_map.mp h' with ⟨o, ho, rfl⟩
      refine ⟨q, List.mem_cons_self q qs, o, ?_, rfl⟩
      exact ((perm_sortByKey (fun o => o.optionId) _).mem_iff).mp ho
    · rcases ih r h' with ⟨q', hq', o, ho, rfl⟩
      exact ⟨q', List.mem_cons_of_mem q hq', o, ho, rfl⟩

/-- C9: the exam read path joins questions to options with an inner join, so
a persisted question with zero option rows is entirely absent from the
reconstructed exam output (it never appears with an empty option list). -/
theorem c9_optionless_question_absent (s : Store) (bid : Nat) (q : QuestionRow)
    (hq : q ∈ s.questionRows) (hb : q.batchId = bid)
    (hno : s.optionRows.filter (fun o => decide (o.questionId = q.questionId)) = []) :
    q.questionId ∉ (examQuestionsOf s bid).map (fun n => n.question_id) := by
  intro hmem
  rcases List.mem_map.mp hmem with ⟨n, hn, hqid⟩
  rcases List.mem_map.mp hn with ⟨p, hp, rfl⟩
  have hp' : p ∈ (examJoinRows s bid).foldl stepQ [] :=
    ((perm_sortByKey (fun p => p.1) _).mem_iff).mp hp
  have hkey : p.2.question_id = p.1 :=
    foldl_stepQ_qid (examJoinRows s bid) [] (by intro p hp0; simp at hp0) p hp'
  have hkmem : p.1 ∈ ((examJoinRows s bid).foldl stepQ []).map Prod.fst :=
    List.mem_map.mpr ⟨p, hp', rfl⟩
  rcases mem_keys_foldl_stepQ (examJoinRows s bid) [] p.1 hkmem with h0 | h0
  · simp at h0
  · rcases List.mem_map.mp h0 with ⟨r, hr, hrid⟩
    rcases mem_examJoinQ s.optionRows _ r hr with ⟨q', hq', o, ho, rfl⟩
    have hqq : q'.questionId = q.questionId := by
      have : (examRowOf q' o).question_id = q.questionId := by
        rw [hrid, ← hkey, hqid]
      simpa [examRowOf] using this
    rw [hqq] at ho
    rw [hno] at ho
    exact absurd ho (List.not_mem_nil o)

/-- Witness for C9: the concrete optionless question is absent. -/
theorem c9_optionless_question_absent_witness :
    (⟨1, 1, "t", "q", "a", "e"⟩ : QuestionRow).questionId ∉
      (examQuestionsOf storeC9 1).map (fun n => n.question_id) :=
  c9_optionless_question_absent storeC9 1 ⟨1, 1, "t", "q", "a", "e"⟩
    (by decide) rfl rfl

/-! ## Claim C3: deduplication of join fan-out -/

theorem pushVocab_keys (m : List (Nat × Example)) (e : Nat) (v : Vocab) :
    (pushVocab m e v).map Prod.fst = m.map Prod.fst := by
  induction m with
  | nil => rfl
  | cons p m ih =>
    by_cases h : p.1 = e
    all_goals simp only [pushVocab, List.map_cons, h] at *
    all_goals simp [h, ih]

theorem alookup_pushVocab_self (m : List (Nat × Example)) (e : Nat) (v : Vocab) :
    ∀ ex, alookup m e = some ex →
      alookup (pushVocab m e v) e = some { ex with vocab := ex.vocab ++ [v] } := by
  induction m with
  | nil => intro ex h; simp [alookup] at h
  | cons p m ih =>
    intro ex h
    by_cases hp : p.1 = e
    · rw [alookup, if_pos hp] at h
      injection h with h
      simp only [pushVocab, List.map_cons, if_pos hp, alookup]
      rw [h]
    · rw [alookup, if_neg hp] at h
      simp only [pushVocab, List.map_cons, if_neg hp, alookup]
      exact ih ex h

theorem alookup_pushVocab_ne (m : List (Nat × Example)) (e e' : Nat) (v : Vocab)
    (hne : e' ≠ e) : alookup (pushVocab m e' v) e = alookup m e := by
  induction m with
  | nil => rfl
  | cons p m ih =>
    by_cases hp : p.1 = e'
    · have hpe : ¬ p.1 = e := by rw [hp]; exact hne
      simp only [pushVocab, List.map_cons, if_pos hp, alookup, if_neg hpe]
      exact ih
    · simp only [pushVocab, List.map_cons, if_neg hp, alookup]
      by_cases hpe : p.1 = e
      · rw [if_pos hpe, if_pos hpe]
      · rw [if_neg hpe, if_neg hpe]
        exact ih

theorem vocsFor_cons_skip (e : Nat) (r : JoinRow) (rows : List JoinRow)
    (h : (truthy r.ExampleId && decide (r.ExampleId.getD 0 = e) && truthy r.VocabId) = false) :
    vocsFor e (r :: rows) = vocsFor e rows := by
  simp [vocsFor, rowsFor, List.filter_cons, h]

theorem vocsFor_cons_take (e : Nat) (r : JoinRow) (rows : List JoinRow)
    (h : (truthy r.ExampleId && decide (r.ExampleId.getD 0 = e) && truthy r.VocabId) = true) :
    vocsFor e (r :: rows) = vocabOfRow r :: vocsFor e rows := by
  simp [vocsFor, rowsFor, List.filter_cons, h]

theorem foldl_stepEx_lookup_some :
    ∀ (rows : List JoinRow) (acc : List (Nat × Example)) (e : Nat) (ex : Example),
      alookup acc e = some ex →
      alookup (rows.foldl stepEx acc) e =
        some { ex with vocab := ex.vocab ++ vocsFor e rows } := by
  intro rows
  induction rows with
  | nil =>
    intro acc e ex h
    simpa [vocsFor, rowsFor] using h
  | cons r rows ih =>
    intro acc e ex h
    rw [List.foldl_cons]
    by_cases ht : truthy r.ExampleId
    · by_cases he : r.ExampleId.getD 0 = e
      · cases halk : alookup acc (r.ExampleId.getD 0) with
        | none =>
          rw [he] at halk
          rw [halk] at h
          exact absurd h (by simp)
        | some ex' =>
          have hex : ex' = ex := by
            rw [he] at halk
            rw [h] at halk
            injection halk with hx
            exact hx.symm
          subst hex
          by_cases hv : truthy r.VocabId
          · have hstep : stepEx acc r = pushVocab acc (r.ExampleId.getD 0) (vocabOfRow r) := by
              simp [stepEx, ht, halk, hv]
            rw [hstep, he]
            have h2 := alookup_pushVocab_self acc e (vocabOfRow r) ex' h
            rw [ih _ e _ h2, vocsFor_cons_take e r rows (by simp [ht, he, hv])]
            simp
          · have hstep : stepEx acc r = acc := by
              simp [stepEx, ht, halk, hv]
            rw [hstep, ih acc e ex' h,
              vocsFor_cons_skip e r rows (by simp [hv])]
      · cases halk : alookup acc (r.ExampleId.getD 0) with
        | none =>
          have hstep : stepEx acc r = acc ++
              [(r.ExampleId.getD 0,
                { japanese := r.Japanese.getD "", romaji := r.Romaji.getD "",
                  english := r.English.getD "",
                  vocab := if truthy r.VocabId then [vocabOfRow r] else [] })] := by
            simp [stepEx, ht, halk]
          have h2 : alookup (stepEx acc r) e = some ex := by
            rw [hstep, alookup_append, h]
          rw [ih _ e ex h2, vocsFor_cons_skip e r rows (by simp [he])]
        | some ex' =>
          by_cases hv : truthy r.VocabId
          · have hstep : stepEx acc r = pushVocab acc (r.ExampleId.getD 0) (vocabOfRow r) := by
              simp [stepEx, ht, halk, hv]
            have h2 : alookup (stepEx acc r) e = some ex := by
              rw [hstep, alookup_pushVocab_ne acc e _ (vocabOfRow r) he, h]
            rw [ih _ e ex h2, vocsFor_cons_skip e r rows (by simp [he])]
          · have hstep : stepEx acc r = acc := by
              simp [stepEx, ht, halk, hv]
            rw [hstep, ih acc e ex h, vocsFor_cons_skip e r rows (by simp [he])]
    · have hstep : stepEx acc r = acc := by
        simp [stepEx, ht]
      rw [hstep, ih acc e ex h, vocsFor_cons_skip e r rows (by simp [ht])]

theorem stepEx_keys (acc : List (Nat × Example)) (r : JoinRow) :
    (stepEx acc r).map Prod.fst = acc.map Prod.fst ∨
    ((stepEx acc r).map Prod.fst = acc.map Prod.fst ++ [r.ExampleId.getD 0] ∧
      truthy r.ExampleId = true ∧ alookup acc (r.ExampleId.getD 0) = none) := by
  by_cases ht : truthy r.ExampleId
  · cases halk : alookup acc (r.ExampleId.getD 0) with
    | none =>
      right
      exact ⟨by simp [stepEx, ht, halk], ht, rfl⟩
    | some ex =>
      left
      by_cases hv : truthy r.VocabId
      · simp [stepEx, ht, halk, hv, pushVocab_keys]
      · simp [stepEx, ht, halk, hv]
  · left
    simp [stepEx, ht]

theorem mem_keys_foldl_stepEx :
    ∀ (rows : List JoinRow) (acc : List (Nat × Example)) (e : Nat),
      e ∈ (rows.foldl stepEx acc).map Prod.fst ↔
        e ∈ acc.map Prod.fst ∨ e ∈ truthyEids rows := by
  intro rows
  induction rows with
  | nil => intro acc e; simp [truthyEids]
  | cons r rows ih =>
    intro acc e
    rw [List.foldl_cons]
    by_cases ht : truthy r.ExampleId
    · have hte : truthyEids (r :: rows) = r.ExampleId.getD 0 :: truthyEids rows := by
        simp [truthyEids, List.filterMap_cons, ht]
      cases halk : alookup acc (r.ExampleId.getD 0) with
      | none =>
        have hk : (stepEx acc r).map Prod.fst = acc.map Prod.fst ++ [r.ExampleId.getD 0] := by
          simp [stepEx, ht, halk]
        rw [ih (stepEx acc r) e, hk, hte]
        simp only [List.mem_append, List.mem_singleton, List.mem_cons]
        tauto
      | some ex =>
        have heid : r.ExampleId.getD 0 ∈ acc.map Prod.fst := by
          by_contra hc
          have : alookup acc (r.ExampleId.getD 0) = none := by
            rw [alookup_eq_none]
            intro p hp hpe
            exact hc (List.mem_map.mpr ⟨p, hp, hpe⟩)
          rw [this] at halk
          exact absurd halk (by simp)
        have hk : (stepEx acc r).map Prod.fst = acc.map Prod.fst := by
          by_cases hv : truthy r.VocabId
          · simp [stepEx, ht, halk, hv, pushVocab_keys]
          · simp [stepEx, ht, halk, hv]
        rw [ih (stepEx acc r) e, hk, hte]
        simp only [List.mem_cons]
        constructor
        · tauto
        · rintro (h | (rfl | h))
          · exact Or.inl h
          · exact Or.inl heid
          · exact Or.inr h
    · have hk : stepEx acc r = acc := by simp [stepEx, ht]
      have hte : truthyEids (r :: rows) = truthyEids rows := by
        simp [truthyEids, List.filterMap_cons, ht]
      rw [ih (stepEx acc r) e, hk, hte]

theorem nodup_keys_foldl_stepEx :
    ∀ (rows : List JoinRow) (acc : List (Nat × Example)),
      (acc.map Prod.fst).Nodup → ((rows.foldl stepEx acc).map Prod.fst).Nodup := by
  intro rows
  induction rows with
  | nil => intro acc h; exact h
  | cons r rows ih =>
    intro acc h
    rw [List.foldl_cons]
    refine ih (stepEx acc r) ?_
    rcases stepEx_keys acc r with hk | ⟨hk, ht, halk⟩
    · rw [hk]; exact h
    · rw [hk]
      have heid : r.ExampleId.getD 0 ∉ acc.map Prod.fst := by
        intro hc
        rcases List.mem_map.mp hc with ⟨p, hp, hpe⟩
        rw [alookup_eq_none] at halk
        exact halk p hp hpe
      simp [List.nodup_append, h, heid]

theorem foldl_stepEx_lookup_none :
    ∀ (rows : List JoinRow) (acc : List (Nat × Example)) (e : Nat),
      alookup acc e = none →
      ∀ ex, alookup (rows.foldl stepEx acc) e = some ex → ex.vocab = vocsFor e rows := by
  intro rows
  induction rows with
  | nil =>
    intro acc e h ex h2
    rw [List.foldl_nil, h] at h2
    exact absurd h2 (by simp)
  | cons r rows ih =>
    intro acc e h ex h2
    rw [List.foldl_cons] at h2
    by_cases ht : truthy r.ExampleId
    · by_cases he : r.ExampleId.getD 0 = e
      · cases halk : alookup acc (r.ExampleId.getD 0) with
        | none =>
          have hstep : stepEx acc r = acc ++
              [(r.ExampleId.getD 0,
                { japanese := r.Japanese.getD "", romaji := r.Romaji.getD "",
                  english := r.English.getD "",
                  vocab := if truthy r.VocabId then [vocabOfRow r] else [] })] := by
            simp [stepEx, ht, halk]
          have hn : alookup (stepEx acc r) e = some
              { japanese := r.Japanese.getD "", romaji := r.Romaji.getD "",
                english := r.English.getD "",
                vocab := if truthy r.VocabId then [vocabOfRow r] else [] } := by
            rw [hstep, he]
            exact alookup_append_singleton_self acc e _ h
          have hA := foldl_stepEx_lookup_some rows (stepEx acc r) e _ hn
          rw [hA] at h2
          injection h2 with h2
          rw [← h2]
          by_cases hv : truthy r.VocabId
          · rw [vocsFor_cons_take e r rows (by simp [ht, he, hv])]
            simp [hv]
          · rw [vocsFor_cons_skip e r rows (by simp [hv])]
            simp [hv]
        | some ex' =>
          rw [he, h] at halk
          exact absurd halk (by simp)
      · have hnone : alookup (stepEx acc r) e = none := by
          cases halk : alookup acc (r.ExampleId.getD 0) with
          | none =>
            have hstep : stepEx acc r = acc ++
                [(r.ExampleId.getD 0,
                  { japanese := r.Japanese.getD "", romaji := r.Romaji.getD "",
                    english := r.English.getD "",
                    vocab := if truthy r.VocabId then [vocabOfRow r] else [] })] := by
              simp [stepEx, ht, halk]
            rw [hstep, alookup_append_singleton_ne acc e _ _ he, h]
          | some ex' =>
            by_cases hv : truthy r.VocabId
            · have hstep : stepEx acc r = pushVocab acc (r.ExampleId.getD 0) (vocabOfRow r) := by
                simp [stepEx, ht, halk, hv]
              rw [hstep, alookup_pushVocab_ne acc e _ (vocabOfRow r) he, h]
            · have hstep : stepEx acc r = acc := by
                simp [stepEx, ht, halk, hv]
              rw [hstep, h]
        rw [vocsFor_cons_skip e r rows (by simp [he])]
        exact ih (stepEx acc r) e hnone ex h2
    · have hstep : stepEx acc r = acc := by simp [stepEx, ht]
      rw [hstep] at h2
      rw [vocsFor_cons_skip e r rows (by simp [ht])]
      exact ih acc e h ex h2

theorem vidsFor_cons_take (e : Nat) (r : JoinRow) (rows : List JoinRow)
    (h : (truthy r.ExampleId && decide (r.ExampleId.getD 0 = e) && truthy r.VocabId) = true) :
    vidsFor e (r :: rows) = r.VocabId.getD 0 :: vidsFor e rows := by
  simp [vidsFor, rowsFor, List.filter_cons, h]

theorem vidsFor_cons_skip (e : Nat) (r : JoinRow) (rows : List JoinRow)
    (h : (truthy r.ExampleId && decide (r.ExampleId.getD 0 = e) && truthy r.VocabId) = false) :
    vidsFor e (r :: rows) = vidsFor e rows := by
  simp [vidsFor, rowsFor, List.filter_cons, h]

theorem evPairs_cons_take (r : JoinRow) (rows : List JoinRow)
    (h1 : truthy r.ExampleId = true) (h2 : truthy r.VocabId = true) :
    evPairs (r :: rows) = (r.ExampleId.getD 0, r.VocabId.getD 0) :: evPairs rows := by
  simp [evPairs, List.filterMap_cons, h1, h2]

theorem evPairs_cons_skip (r : JoinRow) (rows : List JoinRow)
    (h : ¬(truthy r.ExampleId = true ∧ truthy r.VocabId = true)) :
    evPairs (r :: rows) = evPairs rows := by
  simp only [evPairs, List.filterMap_cons]
  rw [if_neg (by simpa [Bool.and_eq_true] using h)]

theorem vidsFor_eq_filterMap_evPairs (e : Nat) :
    ∀ rows : List JoinRow,
      vidsFor e rows =
        (evPairs rows).filterMap (fun p => if p.1 = e then some p.2 else none) := by
  intro rows
  induction rows with
  | nil => rfl
  | cons r rows ih =>
    by_cases ht : truthy r.ExampleId
    · by_cases hv : truthy r.VocabId
      · rw [evPairs_cons_take r rows ht hv, List.filterMap_cons]
        by_cases he : r.ExampleId.getD 0 = e
        · rw [vidsFor_cons_take e r rows (by simp [ht, hv, he])]
          simp [he, ih]
        · rw [vidsFor_cons_skip e r rows (by simp [he])]
          simp [he, ih]
      · rw [evPairs_cons_skip r rows (by simp [hv]),
          vidsFor_cons_skip e r rows (by simp [hv])]
        exact ih
    · rw [evPairs_cons_skip r rows (by simp [ht]),
        vidsFor_cons_skip e r rows (by simp [ht])]
      exact ih

theorem vidsFor_nodup (rows : List JoinRow) (hjoin : (evPairs rows).Nodup) (e : Nat) :
    (vidsFor e rows).Nodup := by
  rw [vidsFor_eq_filterMap_evPairs]
  refine List.Nodup.filterMap ?_ hjoin
  intro p q b hp hq
  by_cases h1 : p.1 = e
  · by_cases h2 : q.1 = e
    · rw [if_pos h1] at hp
      rw [if_pos h2] at hq
      rcases Option.mem_some_iff.mp hp with rfl
      have hb : q.2 = p.2 := Option.mem_some_iff.mp hq
      calc p = (p.1, p.2) := rfl
        _ = (q.1, q.2) := by rw [h1, h2, hb]
        _ = q := rfl
    · rw [if_neg h2] at hq
      exact absurd hq (by simp)
  · rw [if_neg h1] at hp
    exact absurd hp (by simp)

/-- C3: reconstruction deduplicates join fan-out.  Running the per-row loop
of GET /api/grammar/:id over any flat row set produced by the
root-child-grandchild left join (`evPairs` nodup: the join emits each
(child, grandchild) match once; fan-out only repeats parent columns), the
example map holds exactly one node per distinct truthy child identifier
(keys nodup, and a key exists exactly for the row stream's truthy child
ids), and each node carries exactly one vocab entry per distinct grandchild
identifier contributing under that child — never a duplicated parent node. -/
theorem c3_join_fanout_dedup (rows : List JoinRow) (hjoin : (evPairs rows).Nodup) :
    ((rows.foldl stepEx []).map Prod.fst).Nodup ∧
    (∀ e, e ∈ (rows.foldl stepEx []).map Prod.fst ↔ e ∈ truthyEids rows) ∧
    (∀ e ex, alookup (rows.foldl stepEx []) e = some ex →
      ex.vocab.length = ((vidsFor e rows).dedup).length) := by
  refine ⟨nodup_keys_foldl_stepEx rows [] (by simp), ?_, ?_⟩
  · intro e
    rw [mem_keys_foldl_stepEx rows [] e]
    simp
  · intro e ex hex
    have hvoc := foldl_stepEx_lookup_none rows [] e rfl ex hex
    rw [List.dedup_eq_self.mpr (vidsFor_nodup rows hjoin e), hvoc, vocsFor, vidsFor]
    simp

/-- Witness for C3 on a fan-out row set: grammar 1 with examples 10 and 11,
example 10 repeated across two vocab rows (100, 101), example 11 with none. -/
theorem c3_join_fanout_dedup_witness :
    ((([⟨1, "c", "m", "d", some 10, some "j", some "r", some "e", some 100, some "w1",
          some "x1", some "y1"⟩,
        ⟨1, "c", "m", "d", some 10, some "j", some "r", some "e", some 101, some "w2",
          some "x2", some "y2"⟩,
        ⟨1, "c", "m", "d", some 11, some "j2", some "r2", some "e2", none, none, none,
          none⟩] : List JoinRow).foldl stepEx []).map Prod.fst).Nodup ∧
    (⟨"j", "r", "e", [⟨"w1", "x1", "y1"⟩, ⟨"w2", "x2", "y2"⟩]⟩ : Example).vocab.length =
      ((vidsFor 10 [⟨1, "c", "m", "d", some 10, some "j", some "r", some "e", some 100,
          some "w1", some "x1", some "y1"⟩,
        ⟨1, "c", "m", "d", some 10, some "j", some "r", some "e", some 101, some "w2",
          some "x2", some "y2"⟩,
        ⟨1, "c", "m", "d", some 11, some "j2", some "r2", some "e2", none, none, none,
          none⟩]).dedup).length := by
  have h := c3_join_fanout_dedup
    [⟨1, "c", "m", "d", some 10, some "j", some "r", some "e", some 100, some "w1",
        some "x1", some "y1"⟩,
      ⟨1, "c", "m", "d", some 10, some "j", some "r", some "e", some 101, some "w2",
        some "x2", some "y2"⟩,
      ⟨1, "c", "m", "d", some 11, some "j2", some "r2", some "e2", none, none, none,
        none⟩] (by decide)
  exact ⟨h.1, h.2.2 10 _ (by rfl)⟩

/-! ## Claim C7: order of the multi-root output -/

theorem pairwise_lt_of_le_nodup (l : List Nat) (hle : l.Pairwise (· ≤ ·)) (hnd : l.Nodup) :
    l.Pairwise (· < ·) := by
  induction l with
  | nil => exact List.Pairwise.nil
  | cons x xs ih =>
    rw [List.pairwise_cons] at hle ⊢
    rw [List.nodup_cons] at hnd
    exact ⟨fun b hb => lt_of_le_of_ne (hle.1 b hb) (fun he => hnd.1 (he ▸ hb)),
      ih hle.2 hnd.2⟩

theorem alookup_some_mem {α : Type} (m : List (Nat × α)) (k : Nat) (v : α)
    (h : alookup m k = some v) : k ∈ m.map Prod.fst := by
  by_contra hc
  have hn : alookup m k = none := by
    rw [alookup_eq_none]
    intro p hp hpe
    exact hc (List.mem_map.mpr ⟨p, hp, hpe⟩)
  rw [hn] at h
  exact absurd h (by simp)

theorem updateG_keys (m : List (Nat × GrammarN)) (k : Nat) (f : GrammarN → GrammarN) :
    (updateG m k f).map Prod.fst = m.map Prod.fst := by
  induction m with
  | nil => rfl
  | cons p m ih =>
    by_cases h : p.1 = k
    all_goals simp only [updateG, List.map_cons, h] at *
    all_goals simp [h, ih]

theorem addExampleToNode_id (r : JoinRow) (g : GrammarN) :
    (addExampleToNode r g).id = g.id := by
  unfold addExampleToNode
  cases hf : g.examples.find? (fun ex => ex.id == r.ExampleId.getD 0) with
  | none => simp [hf]
  | some ex =>
    by_cases hv : truthy r.VocabId
    · simp [hf, hv]
    · simp [hf, hv]

theorem updateG_id_inv (m : List (Nat × GrammarN)) (k : Nat) (f : GrammarN → GrammarN)
    (hf : ∀ g, (f g).id = g.id) (h : ∀ p ∈ m, p.2.id = p.1) :
    ∀ p ∈ updateG m k f, p.2.id = p.1 := by
  intro p hp
  rcases List.mem_map.mp hp with ⟨p', hp', rfl⟩
  by_cases hk : p'.1 = k
  · rw [if_pos hk]
    simpa [hf] using h p' hp'
  · rw [if_neg hk]
    exact h p' hp'

theorem stepAll_keys (acc : List (Nat × GrammarN)) (r : JoinRow) :
    ((stepAll acc r).map Prod.fst = acc.map Prod.fst ∧ r.GrammarId ∈ acc.map Prod.fst) ∨
    ((stepAll acc r).map Prod.fst = acc.map Prod.fst ++ [r.GrammarId] ∧
      alookup acc r.GrammarId = none) := by
  cases halk : alookup acc r.GrammarId with
  | none =>
    right
    refine ⟨?_, rfl⟩
    by_cases ht : truthy r.ExampleId
    · simp [stepAll, halk, ht, updateG_keys]
    · simp [stepAll, halk, ht]
  | some g =>
    left
    refine ⟨?_, alookup_some_mem acc r.GrammarId g halk⟩
    by_cases ht : truthy r.ExampleId
    · simp [stepAll, halk, ht, updateG_keys]
    · simp [stepAll, halk, ht]

theorem stepAll_id_inv (acc : List (Nat × GrammarN)) (r : JoinRow)
    (h : ∀ p ∈ acc, p.2.id = p.1) : ∀ p ∈ stepAll acc r, p.2.id = p.1 := by
  have hacc' : ∀ p ∈ (match alookup acc r.GrammarId with
      | none => acc ++
          [(r.GrammarId, (⟨r.GrammarId, r.Concept, r.Meaning, r.Details, []⟩ : GrammarN))]
      | some _ => acc), p.2.id = p.1 := by
    cases halk : alookup acc r.GrammarId with
    | none =>
      intro p hp
      rcases List.mem_append.mp hp with hp' | hp'
      · exact h p hp'
      · rcases List.mem_singleton.mp hp' with rfl
        rfl
    | some g => exact h
  unfold stepAll
  by_cases ht : truthy r.ExampleId
  · rw [if_pos ht]
    exact updateG_id_inv _ _ _ (addExampleToNode_id r) hacc'
  · rw [if_neg ht]
    exact hacc'

theorem mem_keys_foldl_stepAll :
    ∀ (rows : List JoinRow) (acc : List (Nat × GrammarN)) (e : Nat),
      e ∈ (rows.foldl stepAll acc).map Prod.fst ↔
        e ∈ acc.map Prod.fst ∨ e ∈ rows.map (fun r => r.GrammarId) := by
  intro rows
  induction rows with
  | nil => intro acc e; simp
  | cons r rows ih =>
    intro acc e
    rw [List.foldl_cons, ih (stepAll acc r) e]
    rcases stepAll_keys acc r with ⟨hk, hmem⟩ | ⟨hk, _⟩
    · rw [hk]
      simp only [List.map_cons, List.mem_cons]
      constructor
      · tauto
      · rintro (h | (rfl | h))
        · exact Or.inl h
        · exact Or.inl hmem
        · exact Or.inr h
    · rw [hk]
      simp only [List.mem_append, List.mem_singleton, List.map_cons, List.mem_cons]
      tauto

theorem nodup_keys_foldl_stepAll :
    ∀ (rows : List JoinRow) (acc : List (Nat × GrammarN)),
      (acc.map Prod.fst).Nodup → ((rows.foldl stepAll acc).map Prod.fst).Nodup := by
  intro rows
  induction rows with
  | nil => intro acc h; exact h
  | cons r rows ih =>
    intro acc h
    rw [List.foldl_cons]
    refine ih (stepAll acc r) ?_
    rcases stepAll_keys acc r with ⟨hk, _⟩ | ⟨hk, halk⟩
    · rw [hk]; exact h
    · rw [hk]
      have hnm : r.GrammarId ∉ acc.map Prod.fst := by
        intro hc
        rcases List.mem_map.mp hc with ⟨p, hp, hpe⟩
        rw [alookup_eq_none] at halk
        exact halk p hp hpe
      simp [List.nodup_append, h, hnm]

theorem foldl_stepAll_id_inv (rows : List JoinRow) :
    ∀ (acc : List (Nat × GrammarN)), (∀ p ∈ acc, p.2.id = p.1) →
      ∀ p ∈ rows.foldl stepAll acc, p.2.id = p.1 := by
  induction rows with
  | nil => intro acc h; exact h
  | cons r rows ih => intro acc h; exact ih (stepAll acc r) (stepAll_id_inv acc r h)

/-- Counterexample to C7: a row stream whose roots first appear in the order
2, 1 is reconstructed as the sequence [1, 2] — Object.values over an
integer-keyed JavaScript object enumerates in ascending numeric key order,
not insertion (first-seen) order. -/
theorem c7_counterexample :
    (reconstructAll
        [⟨2, "b", "", "", none, none, none, none, none, none, none, none⟩,
         ⟨1, "a", "", "", none, none, none, none, none, none, none, none⟩]).map
      (fun n => n.id) = [1, 2] ∧
    firstSeen (([⟨2, "b", "", "", none, none, none, none, none, none, none, none⟩,
         ⟨1, "a", "", "", none, none, none, none, none, none, none, none⟩] :
        List JoinRow).map (fun r => r.GrammarId)) = [2, 1] ∧
    ([1, 2] : List Nat) ≠ [2, 1] := by
  exact ⟨rfl, rfl, by decide⟩

/-- C7 amended: in multi-root reconstruction the returned sequence of root
nodes is ordered by ascending root identifier (the enumeration order of the
integer-keyed grammarMap), with exactly the root identifiers of the input
row stream; this coincides with first-seen order exactly when the row
stream's roots first appear in ascending order, as they do for the store's
ORDER BY g.GrammarId query, but not for arbitrary row streams. -/
theorem c7_output_ascending_root_ids (rows : List JoinRow) :
    ((reconstructAll rows).map (fun n => n.id)).Pairwise (· < ·) ∧
    (∀ g, g ∈ (reconstructAll rows).map (fun n => n.id) ↔
      g ∈ rows.map (fun r => r.GrammarId)) := by
  have hids : (reconstructAll rows).map (fun n => n.id) =
      (sortByKey (fun p => p.1) (rows.foldl stepAll [])).map Prod.fst := by
    unfold reconstructAll
    rw [List.map_map]
    refine List.map_congr_left ?_
    intro p hp
    have hp' : p ∈ rows.foldl stepAll [] :=
      ((perm_sortByKey (fun p => p.1) _).mem_iff).mp hp
    exact foldl_stepAll_id_inv rows [] (by intro p h0; simp at h0) p hp'
  have hperm := perm_sortByKey (fun p : Nat × GrammarN => p.1) (rows.foldl stepAll [])
  have hnd : ((sortByKey (fun p => p.1) (rows.foldl stepAll [])).map Prod.fst).Nodup :=
    (hperm.map Prod.fst).nodup_iff.mpr (nodup_keys_foldl_stepAll rows [] (by simp))
  constructor
  · rw [hids]
    refine pairwise_lt_of_le_nodup _ ?_ hnd
    have hpw := pairwise_sortByKey (fun p : Nat × GrammarN => p.1) (rows.foldl stepAll [])
    exact (List.pairwise_map).mpr hpw
  · intro g
    rw [hids]
    rw [List.mem_map]
    constructor
    · rintro ⟨p, hp, rfl⟩
      have hp' : p ∈ rows.foldl stepAll [] := (hperm.mem_iff).mp hp
      have : p.1 ∈ (rows.foldl stepAll []).map Prod.fst := List.mem_map.mpr ⟨p, hp', rfl⟩
      rcases (mem_keys_foldl_stepAll rows [] p.1).mp this with h0 | h0
      · simp at h0
      · exact h0
    · intro hg
      have : g ∈ (rows.foldl stepAll []).map Prod.fst :=
        (mem_keys_foldl_stepAll rows [] g).mpr (Or.inr hg)
      rcases List.mem_map.mp this with ⟨p, hp, rfl⟩
      exact ⟨p, (hperm.mem_iff).mpr hp, rfl⟩

/-! ## Claim C1: the write/read round trip -/

theorem insVocabs_spec (eid : Nat) :
    ∀ (vs : List Vocab) (st : Store),
      insVocabs eid vs st =
        { st with vocabRows := st.vocabRows ++ vocRows eid st.nextVocabId vs,
                  nextVocabId := st.nextVocabId + vs.length } := by
  intro vs
  induction vs with
  | nil => intro st; simp [insVocabs, vocRows]
  | cons v vs ih =>
    intro st
    rw [insVocabs_cons, ih]
    simp [Store.addVocab, vocRows, List.append_assoc]
    all_goals omega

theorem insExamples_spec (gid : Nat) :
    ∀ (es : List Example) (st : Store),
      insExamples gid es st =
        { st with exampleRows := st.exampleRows ++ exRows gid st.nextExampleId es,
                  vocabRows := st.vocabRows ++ exVocRows st.nextExampleId st.nextVocabId es,
                  nextExampleId := st.nextExampleId + es.length,
                  nextVocabId := st.nextVocabId + totalVoc es } := by
  intro es
  induction es with
  | nil => intro st; simp [insExamples, exRows, exVocRows, totalVoc]
  | cons e es ih =>
    intro st
    rw [insExamples_cons, ih, insVocabs_spec]
    simp [Store.addExample, exRows, exVocRows, totalVoc, List.append_assoc]
    all_goals omega

theorem exRows_mem_grammarId (gid : Nat) :
    ∀ (es : List Example) (E : Nat) (r : ExampleRow), r ∈ exRows gid E es → r.grammarId = gid := by
  intro es
  induction es with
  | nil => intro E r h; simp [exRows] at h
  | cons e es ih =>
    intro E r h
    rcases List.mem_cons.mp h with rfl | h'
    · rfl
    · exact ih (E + 1) r h'

theorem exRows_mem_id_ge (gid : Nat) :
    ∀ (es : List Example) (E : Nat) (r : ExampleRow), r ∈ exRows gid E es → E ≤ r.exampleId := by
  intro es
  induction es with
  | nil => intro E r h; simp [exRows] at h
  | cons e es ih =>
    intro E r h
    rcases List.mem_cons.mp h with rfl | h'
    · exact le_refl E
    · exact le_trans (by omega) (ih (E + 1) r h')

theorem exRows_sorted (gid : Nat) :
    ∀ (es : List Example) (E : Nat),
      (exRows gid E es).Pairwise (fun a b => a.exampleId ≤ b.exampleId) := by
  intro es
  induction es with
  | nil => intro E; simp [exRows]
  | cons e es ih =>
    intro E
    rw [exRows, List.pairwise_cons]
    exact ⟨fun b hb => le_trans (Nat.le_succ E) (exRows_mem_id_ge gid es (E + 1) b hb),
      ih (E + 1)⟩

theorem vocRows_mem_exampleId (eid : Nat) :
    ∀ (vs : List Vocab) (V : Nat) (r : VocabRow), r ∈ vocRows eid V vs → r.exampleId = eid := by
  intro vs
  induction vs with
  | nil => intro V r h; simp [vocRows] at h
  | cons v vs ih =>
    intro V r h
    rcases List.mem_cons.mp h with rfl | h'
    · rfl
    · exact ih (V + 1) r h'

theorem vocRows_mem_id_ge (eid : Nat) :
    ∀ (vs : List Vocab) (V : Nat) (r : VocabRow), r ∈ vocRows eid V vs → V ≤ r.vocabId := by
  intro vs
  induction vs with
  | nil => intro V r h; simp [vocRows] at h
  | cons v vs ih =>
    intro V r h
    rcases List.mem_cons.mp h with rfl | h'
    · exact le_refl V
    · exact le_trans (by omega) (ih (V + 1) r h')

theorem vocRows_sorted (eid : Nat) :
    ∀ (vs : List Vocab) (V : Nat),
      (vocRows eid V vs).Pairwise (fun a b => a.vocabId ≤ b.vocabId) := by
  intro vs
  induction vs with
  | nil => intro V; simp [vocRows]
  | cons v vs ih =>
    intro V
    rw [vocRows, List.pairwise_cons]
    exact ⟨fun b hb => le_trans (Nat.le_succ V) (vocRows_mem_id_ge eid vs (V + 1) b hb),
      ih (V + 1)⟩

theorem exVocRows_mem_ge :
    ∀ (es : List Example) (E V : Nat) (r : VocabRow), r ∈ exVocRows E V es → E ≤ r.exampleId := by
  intro es
  induction es with
  | nil => intro E V r h; simp [exVocRows] at h
  | cons e es ih =>
    intro E V r h
    rcases List.mem_append.mp h with h' | h'
    · exact le_of_eq (vocRows_mem_exampleId E e.vocab V r h').symm
    · exact le_trans (by omega) (ih (E + 1) (V + e.vocab.length) r h')

theorem filter_vocab_canon (e : Example) :
    ∀ (es : List Example) (E V : Nat) (pre : List VocabRow),
      (∀ v ∈ pre, v.exampleId < E) →
      (pre ++ (vocRows E V e.vocab ++ exVocRows (E + 1) (V + e.vocab.length) es)).filter
          (fun v => decide (v.exampleId = E)) = vocRows E V e.vocab := by
  intro es E V pre hpre
  rw [List.filter_append, List.filter_append]
  have h1 : pre.filter (fun v => decide (v.exampleId = E)) = [] := by
    rw [List.filter_eq_nil_iff]
    intro v hv
    simp only [decide_eq_true_eq]
    exact Nat.ne_of_lt (hpre v hv)
  have h2 : (vocRows E V e.vocab).filter (fun v => decide (v.exampleId = E)) =
      vocRows E V e.vocab := by
    rw [List.filter_eq_self]
    intro v hv
    simp only [decide_eq_true_eq]
    exact vocRows_mem_exampleId E e.vocab V v hv
  have h3 : (exVocRows (E + 1) (V + e.vocab.length) es).filter
      (fun v => decide (v.exampleId = E)) = [] := by
    rw [List.filter_eq_nil_iff]
    intro v hv
    simp only [decide_eq_true_eq]
    have := exVocRows_mem_ge es (E + 1) (V + e.vocab.length) v hv
    omega
  rw [h1, h2, h3]
  simp

theorem joinExList_canon (g : GrammarRow) :
    ∀ (es : List Example) (E V : Nat) (pre : List VocabRow),
      (∀ v ∈ pre, v.exampleId < E) →
      joinExList (pre ++ exVocRows E V es) g (exRows g.grammarId E es) = canonRows g E V es := by
  intro es
  induction es with
  | nil => intro E V pre hpre; rfl
  | cons e es ih =>
    intro E V pre hpre
    rw [show exRows g.grammarId E (e :: es) =
        (⟨E, g.grammarId, e.japanese, e.romaji, e.english⟩ : ExampleRow) ::
          exRows g.grammarId (E + 1) es from rfl]
    rw [joinExList]
    have hvrows : pre ++ exVocRows E V (e :: es) =
        (pre ++ vocRows E V e.vocab) ++ exVocRows (E + 1) (V + e.vocab.length) es := by
      rw [show exVocRows E V (e :: es) =
          vocRows E V e.vocab ++ exVocRows (E + 1) (V + e.vocab.length) es from rfl]
      rw [List.append_assoc]
    have hfil := filter_vocab_canon e es E V pre hpre
    have hpre' : ∀ v ∈ pre ++ vocRows E V e.vocab, v.exampleId < E + 1 := by
      intro v hv
      rcases List.mem_append.mp hv with h' | h'
      · exact lt_trans (hpre v h') (by omega)
      · rw [vocRows_mem_exampleId E e.vocab V v h']
        omega
    have hsort : sortByKey (fun v => v.vocabId)
        ((pre ++ exVocRows E V (e :: es)).filter (fun v => decide (v.exampleId = E))) =
        vocRows E V e.vocab := by
      rw [show (pre ++ exVocRows E V (e :: es)).filter (fun v => decide (v.exampleId = E)) =
          vocRows E V e.vocab from by
        rw [show pre ++ exVocRows E V (e :: es) =
            pre ++ (vocRows E V e.vocab ++ exVocRows (E + 1) (V + e.vocab.length) es) from rfl]
        exact hfil]
      exact sortByKey_eq_self _ _ (vocRows_sorted E e.vocab V)
    rw [show vocabJoinOf (pre ++ exVocRows E V (e :: es)) g
          ⟨E, g.grammarId, e.japanese, e.romaji, e.english⟩ =
        (match vocRows E V e.vocab with
         | [] => [exampleJoinRow g ⟨E, g.grammarId, e.japanese, e.romaji, e.english⟩]
         | v :: vs => (v :: vs).map
             (vocabJoinRow g ⟨E, g.grammarId, e.japanese, e.romaji, e.english⟩)) from by
      unfold vocabJoinOf
      rw [hsort]]
    have htail : joinExList (pre ++ exVocRows E V (e :: es)) g (exRows g.grammarId (E + 1) es) =
        canonRows g (E + 1) (V + e.vocab.length) es := by
      rw [hvrows]
      exact ih (E + 1) (V + e.vocab.length) (pre ++ vocRows E V e.vocab) hpre'
    rw [htail]
    rfl

theorem pushVocab_append_singleton (acc : List (Nat × Example)) (eid : Nat) (nd : Example)
    (v : Vocab) (h : ∀ p ∈ acc, p.1 ≠ eid) :
    pushVocab (acc ++ [(eid, nd)]) eid v =
      acc ++ [(eid, { nd with vocab := nd.vocab ++ [v] })] := by
  unfold pushVocab
  rw [List.map_append]
  congr 1
  · calc acc.map (fun p => if p.1 = eid then (p.1, { p.2 with vocab := p.2.vocab ++ [v] }) else p)
        = acc.map id := List.map_congr_left (fun p hp => by rw [if_neg (h p hp)]; rfl)
      _ = acc := List.map_id acc
  · simp

theorem stepEx_push (acc : List (Nat × Example)) (r : JoinRow) (ex : Example)
    (hT : truthy r.ExampleId = true) (hl : alookup acc (r.ExampleId.getD 0) = some ex)
    (hV : truthy r.VocabId = true) :
    stepEx acc r = pushVocab acc (r.ExampleId.getD 0) (vocabOfRow r) := by
  simp [stepEx, hT, hl, hV]

theorem stepEx_create (acc : List (Nat × Example)) (r : JoinRow)
    (hT : truthy r.ExampleId = true) (hl : alookup acc (r.ExampleId.getD 0) = none) :
    stepEx acc r = acc ++
      [(r.ExampleId.getD 0,
        { japanese := r.Japanese.getD "", romaji := r.Romaji.getD "",
          english := r.English.getD "",
          vocab := if truthy r.VocabId then [vocabOfRow r] else [] })] := by
  simp [stepEx, hT, hl]

theorem foldl_stepEx_vocab_tail (g : GrammarRow) (eRow : ExampleRow) (hE : eRow.exampleId ≠ 0) :
    ∀ (vs : List Vocab) (V : Nat) (acc : List (Nat × Example)) (nd : Example),
      (∀ p ∈ acc, p.1 ≠ eRow.exampleId) → 1 ≤ V →
      ((vocRows eRow.exampleId V vs).map (vocabJoinRow g eRow)).foldl stepEx
          (acc ++ [(eRow.exampleId, nd)]) =
        acc ++ [(eRow.exampleId, { nd with vocab := nd.vocab ++ vs })] := by
  intro vs
  induction vs with
  | nil =>
    intro V acc nd hacc hV
    simp [vocRows]
  | cons v vs ih =>
    intro V acc nd hacc hV
    rw [show vocRows eRow.exampleId V (v :: vs) =
        (⟨V, eRow.exampleId, v.word, v.romaji, v.meaning⟩ : VocabRow) ::
          vocRows eRow.exampleId (V + 1) vs from rfl]
    rw [List.map_cons, List.foldl_cons]
    have halk : alookup (acc ++ [(eRow.exampleId, nd)]) eRow.exampleId = some nd :=
      alookup_append_singleton_self acc eRow.exampleId nd
        ((alookup_eq_none acc eRow.exampleId).mpr hacc)
    rw [stepEx_push (acc ++ [(eRow.exampleId, nd)])
      (vocabJoinRow g eRow ⟨V, eRow.exampleId, v.word, v.romaji, v.meaning⟩) nd
      (by simp [truthy, vocabJoinRow, hE])
      (by exact halk)
      (by simp [truthy, vocabJoinRow]; omega)]
    rw [show (vocabJoinRow g eRow
        (⟨V, eRow.exampleId, v.word, v.romaji, v.meaning⟩ : VocabRow)).ExampleId.getD 0 =
      eRow.exampleId from rfl]
    rw [show vocabOfRow (vocabJoinRow g eRow
        (⟨V, eRow.exampleId, v.word, v.romaji, v.meaning⟩ : VocabRow)) = v from rfl]
    rw [pushVocab_append_singleton acc eRow.exampleId nd v hacc]
    rw [ih (V + 1) acc { nd with vocab := nd.vocab ++ [v] } hacc (by omega)]
    simp

theorem foldl_stepEx_group (g : GrammarRow) (E V : Nat) (jap rom eng : String)
    (vl : List Vocab) (acc : List (Nat × Example))
    (hacc : ∀ p ∈ acc, p.1 ≠ E) (hE : 1 ≤ E) (hV : 1 ≤ V) :
    (match vocRows E V vl with
     | [] => [exampleJoinRow g ⟨E, g.grammarId, jap, rom, eng⟩]
     | v :: vs => (v :: vs).map (vocabJoinRow g ⟨E, g.grammarId, jap, rom, eng⟩)).foldl
        stepEx acc = acc ++ [(E, ⟨jap, rom, eng, vl⟩)] := by
  have halk : alookup acc E = none := (alookup_eq_none acc E).mpr hacc
  cases vl with
  | nil =>
    simp only [vocRows, List.foldl_cons, List.foldl_nil]
    rw [stepEx_create acc (exampleJoinRow g ⟨E, g.grammarId, jap, rom, eng⟩)
      (by simp [exampleJoinRow, truthy]; omega) halk]
    rfl
  | cons v vs =>
    rw [show vocRows E V (v :: vs) =
        (⟨V, E, v.word, v.romaji, v.meaning⟩ : VocabRow) :: vocRows E (V + 1) vs from rfl]
    simp only [List.map_cons, List.foldl_cons]
    have hrow0 : stepEx acc (vocabJoinRow g ⟨E, g.grammarId, jap, rom, eng⟩
        ⟨V, E, v.word, v.romaji, v.meaning⟩) =
        acc ++ [(E, ⟨jap, rom, eng, [v]⟩)] := by
      rw [stepEx_create acc
        (vocabJoinRow g ⟨E, g.grammarId, jap, rom, eng⟩ ⟨V, E, v.word, v.romaji, v.meaning⟩)
        (by simp [vocabJoinRow, truthy]; omega) halk]
      have hc : truthy ((vocabJoinRow g (⟨E, g.grammarId, jap, rom, eng⟩ : ExampleRow)
          (⟨V, E, v.word, v.romaji, v.meaning⟩ : VocabRow)).VocabId) = true := by
        simp [vocabJoinRow, truthy]
        omega
      rw [hc]
      simp [vocabOfRow, vocabJoinRow, exampleJoinRow]
    rw [hrow0]
    rw [foldl_stepEx_vocab_tail g ⟨E, g.grammarId, jap, rom, eng⟩ (by simp; omega)
      vs (V + 1) acc ⟨jap, rom, eng, [v]⟩ hacc (by omega)]
    rfl

theorem foldl_stepEx_canon (g : GrammarRow) :
    ∀ (es : List Example) (E V : Nat) (acc : List (Nat × Example)),
      (∀ p ∈ acc, p.1 < E) → 1 ≤ E → 1 ≤ V →
      (canonRows g E V es).foldl stepEx acc = acc ++ assocOf E es := by
  intro es
  induction es with
  | nil =>
    intro E V acc hacc hE hV
    simp [canonRows, assocOf]
  | cons e es ih =>
    intro E V acc hacc hE hV
    have hne : ∀ p ∈ acc, p.1 ≠ E := fun p hp => Nat.ne_of_lt (hacc p hp)
    have hgroup : (canonRows g E V (e :: es)) =
        (match vocRows E V e.vocab with
         | [] => [exampleJoinRow g ⟨E, g.grammarId, e.japanese, e.romaji, e.english⟩]
         | v :: vs => (v :: vs).map
             (vocabJoinRow g ⟨E, g.grammarId, e.japanese, e.romaji, e.english⟩))
        ++ canonRows g (E + 1) (V + e.vocab.length) es := rfl
    rw [hgroup, List.foldl_append]
    rw [foldl_stepEx_group g E V e.japanese e.romaji e.english e.vocab acc hne hE hV]
    rw [show (⟨e.japanese, e.romaji, e.english, e.vocab⟩ : Example) = e from rfl]
    have hacc' : ∀ p ∈ acc ++ [(E, e)], p.1 < E + 1 := by
      intro p hp
      rcases List.mem_append.mp hp with hp' | hp'
      · exact lt_trans (hacc p hp') (by omega)
      · rcases List.mem_singleton.mp hp' with rfl
        omega
    rw [ih (E + 1) (V + e.vocab.length) (acc ++ [(E, e)]) hacc' (by omega) (by omega)]
    simp [assocOf]

theorem assocOf_map_snd : ∀ (es : List Example) (E : Nat),
    (assocOf E es).map (fun p => p.2) = es := by
  intro es
  induction es with
  | nil => intro E; rfl
  | cons e es ih => intro E; simp [assocOf, ih]

theorem joinRows_fresh (s : Store) (c m d : String) (es : List Example)
    (hgB : ∀ g ∈ s.grammarRows, g.grammarId < s.nextGrammarId) :
    joinRows (insExamples s.nextGrammarId es (s.addGrammar c m d)) s.nextGrammarId =
      examplesJoinOf (insExamples s.nextGrammarId es (s.addGrammar c m d))
        ⟨s.nextGrammarId, c, m, d⟩ := by
  have hGrows : (insExamples s.nextGrammarId es (s.addGrammar c m d)).grammarRows =
      s.grammarRows ++ [⟨s.nextGrammarId, c, m, d⟩] := by
    rw [insExamples_spec]
    rfl
  unfold joinRows
  rw [hGrows, List.filter_append]
  have h0 : s.grammarRows.filter (fun g => decide (g.grammarId = s.nextGrammarId)) = [] := by
    rw [List.filter_eq_nil_iff]
    intro g hg
    simp only [decide_eq_true_eq]
    exact Nat.ne_of_lt (hgB g hg)
  rw [h0]
  simp [joinGList, List.filter]

theorem examplesJoinOf_fresh (s : Store) (c m d : String) (es : List Example)
    (heB : ∀ e ∈ s.exampleRows, e.grammarId < s.nextGrammarId ∧ e.exampleId < s.nextExampleId)
    (hvB : ∀ v ∈ s.vocabRows, v.exampleId < s.nextExampleId) :
    examplesJoinOf (insExamples s.nextGrammarId es (s.addGrammar c m d))
        ⟨s.nextGrammarId, c, m, d⟩ =
      (match es with
       | [] => [grammarJoinRow ⟨s.nextGrammarId, c, m, d⟩]
       | _ :: _ => canonRows ⟨s.nextGrammarId, c, m, d⟩ s.nextExampleId s.nextVocabId es) := by
  have hErows : (insExamples s.nextGrammarId es (s.addGrammar c m d)).exampleRows =
      s.exampleRows ++ exRows s.nextGrammarId s.nextExampleId es := by
    rw [insExamples_spec]
    rfl
  have hVrows : (insExamples s.nextGrammarId es (s.addGrammar c m d)).vocabRows =
      s.vocabRows ++ exVocRows s.nextExampleId s.nextVocabId es := by
    rw [insExamples_spec]
    rfl
  unfold examplesJoinOf
  rw [hErows]
  rw [show ((⟨s.nextGrammarId, c, m, d⟩ : GrammarRow)).grammarId = s.nextGrammarId from rfl]
  rw [List.filter_append]
  have h0 : s.exampleRows.filter (fun e => decide (e.grammarId = s.nextGrammarId)) = [] := by
    rw [List.filter_eq_nil_iff]
    intro e he
    simp only [decide_eq_true_eq]
    exact Nat.ne_of_lt (heB e he).1
  have hfE : (exRows s.nextGrammarId s.nextExampleId es).filter
      (fun e => decide (e.grammarId = s.nextGrammarId)) =
      exRows s.nextGrammarId s.nextExampleId es := by
    rw [List.filter_eq_self]
    intro r hr
    simp only [decide_eq_true_eq]
    exact exRows_mem_grammarId s.nextGrammarId es s.nextExampleId r hr
  rw [h0, hfE, List.nil_append]
  rw [sortByKey_eq_self _ _ (exRows_sorted s.nextGrammarId es s.nextExampleId)]
  cases es with
  | nil => rfl
  | cons e es' =>
    rw [show exRows s.nextGrammarId s.nextExampleId (e :: es') =
        (⟨s.nextExampleId, s.nextGrammarId, e.japanese, e.romaji, e.english⟩ : ExampleRow) ::
          exRows s.nextGrammarId (s.nextExampleId + 1) es' from rfl]
    rw [hVrows]
    have := joinExList_canon (⟨s.nextGrammarId, c, m, d⟩ : GrammarRow) (e :: es')
      s.nextExampleId s.nextVocabId s.vocabRows hvB
    exact this

theorem canonRows_head (g : GrammarRow) (e : Example) (es : List Example) (E V : Nat) :
    ∃ r rest, canonRows g E V (e :: es) = r :: rest ∧
      r.Concept = g.concept ∧ r.Meaning = g.meaning ∧ r.Details = g.details := by
  cases hv : e.vocab with
  | nil =>
    refine ⟨exampleJoinRow g ⟨E, g.grammarId, e.japanese, e.romaji, e.english⟩,
      canonRows g (E + 1) (V + e.vocab.length) es, ?_, rfl, rfl, rfl⟩
    rw [show canonRows g E V (e :: es) =
        (match vocRows E V e.vocab with
         | [] => [exampleJoinRow g ⟨E, g.grammarId, e.japanese, e.romaji, e.english⟩]
         | v :: vs => (v :: vs).map
             (vocabJoinRow g ⟨E, g.grammarId, e.japanese, e.romaji, e.english⟩))
        ++ canonRows g (E + 1) (V + e.vocab.length) es from rfl]
    rw [show vocRows E V e.vocab = [] from by rw [hv]; rfl]
    rfl
  | cons v vs =>
    refine ⟨vocabJoinRow g ⟨E, g.grammarId, e.japanese, e.romaji, e.english⟩
        ⟨V, E, v.word, v.romaji, v.meaning⟩,
      (vocRows E (V + 1) vs).map
          (vocabJoinRow g ⟨E, g.grammarId, e.japanese, e.romaji, e.english⟩)
        ++ canonRows g (E + 1) (V + e.vocab.length) es, ?_, rfl, rfl, rfl⟩
    rw [show canonRows g E V (e :: es) =
        (match vocRows E V e.vocab with
         | [] => [exampleJoinRow g ⟨E, g.grammarId, e.japanese, e.romaji, e.english⟩]
         | v :: vs => (v :: vs).map
             (vocabJoinRow g ⟨E, g.grammarId, e.japanese, e.romaji, e.english⟩))
        ++ canonRows g (E + 1) (V + e.vocab.length) es from rfl]
    rw [show vocRows E V e.vocab = (⟨V, E, v.word, v.romaji, v.meaning⟩ : VocabRow) ::
        vocRows E (V + 1) vs from by rw [hv]; rfl]
    rfl

/-- C1: the round-trip law.  For every valid GrammarDocument and every
well-formed store, running the cascading writer of POST /api/gemini (no
insert failing) returns a root id and then running the row-to-tree transform
of GET /api/grammar/:id on the join rows for that root id yields exactly the
input document (this read path emits no identifier fields, so the equality
is literal). -/
theorem c1_write_read_round_trip (doc : GrammarDoc) (s : Store) (hWF : s.WFGrammar) :
    ∃ gid, (grammarRouteTx (fun _ => none) doc s).1 = Except.ok (gid, doc) ∧
      reconstructGrammar (joinRows (grammarRouteTx (fun _ => none) doc s).2 gid) =
        some doc := by
  obtain ⟨h1G, h1E, h1V, hgB, heB, hvB⟩ := hWF
  refine ⟨s.nextGrammarId, ?_, ?_⟩
  · rw [grammarRouteTx_noFail]
  · have hs2 : (grammarRouteTx (fun _ => none) doc s).2 =
        insExamples s.nextGrammarId doc.examples
          (s.addGrammar doc.concept doc.meaning doc.details) := by
      rw [grammarRouteTx_noFail]
    rw [hs2, joinRows_fresh s doc.concept doc.meaning doc.details doc.examples hgB,
      examplesJoinOf_fresh s doc.concept doc.meaning doc.details doc.examples heB hvB]
    cases hes : doc.examples with
    | nil =>
      rw [show reconstructGrammar
          [grammarJoinRow ⟨s.nextGrammarId, doc.concept, doc.meaning, doc.details⟩] =
        some ⟨doc.concept, doc.meaning, doc.details, []⟩ from rfl]
      rw [← hes]
    | cons e es' =>
      obtain ⟨r, rest, hcanon, hc, hm, hd⟩ := canonRows_head
        ⟨s.nextGrammarId, doc.concept, doc.meaning, doc.details⟩ e es'
        s.nextExampleId s.nextVocabId
      rw [hcanon]
      rw [show reconstructGrammar (r :: rest) =
        some ⟨r.Concept, r.Meaning, r.Details,
          ((r :: rest).foldl stepEx []).map (fun p => p.2)⟩ from rfl]
      rw [← hcanon]
      rw [foldl_stepEx_canon ⟨s.nextGrammarId, doc.concept, doc.meaning, doc.details⟩
        (e :: es') s.nextExampleId s.nextVocabId [] (by simp) h1E h1V]
      rw [List.nil_append, assocOf_map_snd]
      rw [hc, hm, hd, ← hes]

/-- Witness for C1 at a concrete document and the empty store. -/
theorem c1_write_read_round_trip_witness :
    ∃ gid, (grammarRouteTx (fun _ => none)
        ⟨"c", "m", "d", [⟨"j", "r", "e", [⟨"w", "x", "y"⟩]⟩]⟩ store0).1 =
      Except.ok (gid, ⟨"c", "m", "d", [⟨"j", "r", "e", [⟨"w", "x", "y"⟩]⟩]⟩) ∧
      reconstructGrammar (joinRows (grammarRouteTx (fun _ => none)
        ⟨"c", "m", "d", [⟨"j", "r", "e", [⟨"w", "x", "y"⟩]⟩]⟩ store0).2 gid) =
        some ⟨"c", "m", "d", [⟨"j", "r", "e", [⟨"w", "x", "y"⟩]⟩]⟩ :=
  c1_write_read_round_trip ⟨"c", "m", "d", [⟨"j", "r", "e", [⟨"w", "x", "y"⟩]⟩]⟩ store0
    (by decide)

/-! ## Claim C5: the code-fence sanitizer -/

theorem hasFence_tail (c : Char) (l : List Char) (h : hasFence (c :: l) = false) :
    hasFence l = false := by
  cases l with
  | nil => rfl
  | cons c2 l2 =>
    cases l2 with
    | nil => rfl
    | cons c3 l3 =>
      rw [show hasFence (c :: c2 :: c3 :: l3) =
        ((isTick c && isTick c2 && isTick c3) || hasFence (c2 :: c3 :: l3)) from rfl] at h
      exact (Bool.or_eq_false_iff.mp h).2

theorem endsTick_tail (c : Char) (l : List Char) (h : endsTick (c :: l) = false) :
    endsTick l = false := by
  cases l with
  | nil => rfl
  | cons c2 l2 =>
    rw [show endsTick (c :: c2 :: l2) = endsTick (c2 :: l2) from by
      simp [endsTick, List.getLast?_cons_cons]] at h
    exact h

theorem hasFence_dropWhile (p : Char → Bool) :
    ∀ (l : List Char), hasFence l = false → hasFence (l.dropWhile p) = false := by
  intro l
  induction l with
  | nil => intro h; exact h
  | cons c l ih =>
    intro h
    rw [List.dropWhile_cons]
    by_cases hp : p c = true
    · rw [if_pos hp]
      exact ih (hasFence_tail c l h)
    · rw [if_neg hp]
      exact h

theorem endsTick_dropWhile (p : Char → Bool) :
    ∀ (l : List Char), endsTick l = false → endsTick (l.dropWhile p) = false := by
  intro l
  induction l with
  | nil => intro h; exact h
  | cons c l ih =>
    intro h
    rw [List.dropWhile_cons]
    by_cases hp : p c = true
    · rw [if_pos hp]
      exact ih (endsTick_tail c l h)
    · rw [if_neg hp]
      exact h

theorem head?_dropWhile_not (p : Char → Bool) :
    ∀ (l : List Char) (c : Char), (l.dropWhile p).head? = some c → p c = false := by
  intro l
  induction l with
  | nil => intro c h; simp at h
  | cons x l ih =>
    intro c h
    rw [List.dropWhile_cons] at h
    by_cases hp : p x = true
    · rw [if_pos hp] at h
      exact ih c h
    · rw [if_neg hp] at h
      simp at h
      rw [h] at hp
      exact Bool.eq_false_iff.mpr hp

theorem dropWhile_idem (p : Char → Bool) (l : List Char) :
    (l.dropWhile p).dropWhile p = l.dropWhile p := by
  cases hd : l.dropWhile p with
  | nil => rfl
  | cons c r =>
    have hc : p c = false := head?_dropWhile_not p l c (by rw [hd]; rfl)
    rw [List.dropWhile_cons, if_neg (by rw [hc]; simp)]

theorem trimWs_dropWhile (l : List Char) : trimWs (l.dropWhile isWs) = trimWs l := by
  unfold trimWs
  rw [dropWhile_idem]

theorem splitFence_append_close :
    ∀ (l : List Char), hasFence l = false → endsTick l = false →
      splitFence (l ++ [tick, tick, tick]) = some (l, []) := by
  intro l
  induction l with
  | nil =>
    intro _ _
    simp [splitFence, startsFence, isTick]
  | cons c l ih =>
    intro h1 h2
    rw [List.cons_append]
    rw [show splitFence (c :: (l ++ [tick, tick, tick])) =
      (match startsFence (c :: (l ++ [tick, tick, tick])) with
       | some rest2 => some ([], rest2)
       | none => (splitFence (l ++ [tick, tick, tick])).map
           (fun pr => (c :: pr.1, pr.2))) from rfl]
    have hsf : startsFence (c :: (l ++ [tick, tick, tick])) = none := by
      cases l with
      | nil =>
        have hc : isTick c = false := by simpa [endsTick] using h2
        simp [startsFence, hc]
      | cons c2 l2 =>
        cases l2 with
        | nil =>
          have hc2 : isTick c2 = false := by
            simpa [endsTick] using h2
          simp [startsFence, hc2]
        | cons c3 l3 =>
          rw [show hasFence (c :: c2 :: c3 :: l3) =
            ((isTick c && isTick c2 && isTick c3) || hasFence (c2 :: c3 :: l3)) from rfl] at h1
          have := (Bool.or_eq_false_iff.mp h1).1
          simp only [List.cons_append, startsFence]
          rw [if_neg (by rw [this]; simp)]
    rw [hsf]
    have hrec := ih (hasFence_tail c l h1) (endsTick_tail c l h2)
    rw [hrec]
    rfl

theorem dropWhile_ws_append_close (l : List Char) :
    (l ++ [tick, tick, tick]).dropWhile isWs =
      (l.dropWhile isWs) ++ [tick, tick, tick] := by
  induction l with
  | nil =>
    simp [List.dropWhile_cons, show isWs tick = false from by decide]
  | cons c l ih =>
    rw [List.cons_append, List.dropWhile_cons, List.dropWhile_cons]
    by_cases hp : isWs c = true
    · rw [if_pos hp, if_pos hp]
      exact ih
    · rw [if_neg hp, if_neg hp]
      rfl

theorem findJsonFence_mkJsonFence (inner : List Char)
    (h1 : hasFence inner = false) (h2 : endsTick inner = false) :
    findJsonFence (mkJsonFence inner) = some (inner.dropWhile isWs) := by
  have hAt : jsonFenceAt (mkJsonFence inner) = some (inner.dropWhile isWs) := by
    rw [show jsonFenceAt (mkJsonFence inner) =
        (splitFence ((inner ++ [tick, tick, tick]).dropWhile isWs)).map (fun pr => pr.1)
      from rfl]
    rw [dropWhile_ws_append_close]
    rw [splitFence_append_close (inner.dropWhile isWs) (hasFence_dropWhile isWs inner h1)
      (endsTick_dropWhile isWs inner h2)]
    rfl
  rw [show findJsonFence (mkJsonFence inner) =
      (match jsonFenceAt (mkJsonFence inner) with
       | some g => some g
       | none => findJsonFence (tick :: tick :: 'j' :: 's' :: 'o' :: 'n' ::
           (inner ++ [tick, tick, tick]))) from rfl]
  rw [hAt]

theorem getLast?_dropWhile (p : Char → Bool) :
    ∀ (l : List Char), l.dropWhile p ≠ [] → (l.dropWhile p).getLast? = l.getLast? := by
  intro l
  induction l with
  | nil => intro h; simp at h
  | cons c l ih =>
    intro h
    rw [List.dropWhile_cons] at h ⊢
    by_cases hp : p c = true
    · rw [if_pos hp] at h ⊢
      rw [ih h]
      cases l with
      | nil => simp at h
      | cons c2 l2 => rw [List.getLast?_cons_cons]
    · rw [if_neg hp]

theorem trimWs_head_not_ws (l : List Char) (c : Char) (h : (trimWs l).head? = some c) :
    isWs c = false := by
  unfold trimWs at h
  rw [List.head?_reverse] at h
  by_cases hbe : ((l.dropWhile isWs).reverse).dropWhile isWs = []
  · rw [hbe] at h
    simp at h
  · rw [getLast?_dropWhile isWs _ hbe, List.getLast?_reverse] at h
    exact head?_dropWhile_not isWs l c h

theorem trimWs_last_not_ws (l : List Char) (c : Char) (h : (trimWs l).getLast? = some c) :
    isWs c = false := by
  unfold trimWs at h
  rw [List.getLast?_reverse] at h
  exact head?_dropWhile_not isWs _ c h

theorem sanitizeIndex_eq_trim (s : List Char) : ∃ t, sanitizeIndex s = trimWs t := by
  unfold sanitizeIndex
  cases findJsonFence s with
  | some g => exact ⟨g, rfl⟩
  | none =>
    cases findAnyFence s with
    | some g => exact ⟨g, rfl⟩
    | none => exact ⟨s, rfl⟩

/-- Counterexample to C5: the sanitizer of new.js does NOT trim surrounding
whitespace from its result when neither regex matches — the input is
returned untouched, with its surrounding whitespace. -/
theorem c5_counterexample :
    sanitizeNew [' ', 'x', ' '] = [' ', 'x', ' '] ∧
    trimWs [' ', 'x', ' '] = ['x'] ∧
    ([' ', 'x', ' '] : List Char) ≠ ['x'] := by
  refine ⟨rfl, rfl, by decide⟩

/-- C5 amended: both sanitizers first search for a ```json-tagged fence,
then for any fence, never throw, and return the matched fence's inner
content trimmed of whitespace — in particular, for every text wrapped in a
```json fence (whose body contains no fence and does not end in a backtick,
so that the lazy body ends at the closing fence), the output is the fence's
inner content trimmed.  When neither regex matches, index.js returns the
full text trimmed (its result never carries surrounding whitespace), but
new.js returns the full text UNtrimmed. -/
theorem c5_sanitizer_behaviour (inner s : List Char) :
    (hasFence inner = false → endsTick inner = false →
      sanitizeIndex (mkJsonFence inner) = trimWs inner ∧
      sanitizeNew (mkJsonFence inner) = trimWs inner) ∧
    (∀ c, (sanitizeIndex s).head? = some c → isWs c = false) ∧
    (∀ c, (sanitizeIndex s).getLast? = some c → isWs c = false) ∧
    (findJsonFence s = none → findAnyFence s = none → sanitizeNew s = s) := by
  refine ⟨?_, ?_, ?_, ?_⟩
  · intro h1 h2
    have hf := findJsonFence_mkJsonFence inner h1 h2
    constructor
    · simp only [sanitizeIndex, hf]
      exact trimWs_dropWhile inner
    · simp only [sanitizeNew, hf]
      exact trimWs_dropWhile inner
  · intro c h
    obtain ⟨t, ht⟩ := sanitizeIndex_eq_trim s
    rw [ht] at h
    exact trimWs_head_not_ws t c h
  · intro c h
    obtain ⟨t, ht⟩ := sanitizeIndex_eq_trim s
    rw [ht] at h
    exact trimWs_last_not_ws t c h
  · intro hj ha
    simp only [sanitizeNew, hj, ha]

/-- Witness for C5 at a concrete fenced body and a concrete fence-free text. -/
theorem c5_sanitizer_behaviour_witness :
    (sanitizeIndex (mkJsonFence [' ', 'a']) = trimWs [' ', 'a'] ∧
      sanitizeNew (mkJsonFence [' ', 'a']) = trimWs [' ', 'a']) ∧
    sanitizeNew ['x'] = ['x'] := by
  have h := c5_sanitizer_behaviour [' ', 'a'] ['x']
  exact ⟨h.1 (by decide) (by decide), h.2.2.2 rfl rfl⟩
